import Mathlib

/-!
Verification development for the in-memory tabular data engine of the
openelectricity TypeScript client (src/datatable.ts and the series
materialization built on it).

The TypeScript code is shallowly embedded:

* JavaScript runtime values occurring in table cells are the inductive
  type `Value` (strings, numbers as exact rationals plus a separate `nan`
  marker, booleans, `Date` objects as an epoch-second integer, `null`,
  and `undefined` for absent object properties).
* A JavaScript object used as a table row is an insertion-ordered
  association list `Row`; property read is `valueAt` (absent keys give
  `Value.undef`, like property access on a JS object) and property
  assignment is `jsSet` (overwrite in place, else append).
* JS `Map` objects are insertion-ordered association lists with
  first-match lookup and upsert semantics.
* `Array.prototype.sort` (stable since ES2019) is modelled by the stable
  structural insertion sort `jsSort`, parameterized by the sign test
  `cmp a b < 0` of the JS comparator.
* Timestamp strings are parsed and rendered with an exact proleptic
  Gregorian civil-day computation; `new Date(string)` takes the process
  local zone offset (in minutes) as an explicit parameter, since an
  ISO-like string without zone suffix is interpreted in local time.
* `Math` arithmetic is exact rational arithmetic; `Math.sqrt` does not
  appear in any definition — `describe`'s `std` field (which the source
  sets to `Math.sqrt(variance)`) is represented by its square, the
  `variance` field, and theorems about `std` are stated through
  `Real.sqrt` of that field.
-/

/- The Batteries rational operations are `@[irreducible]`; make them
reducible in this file so that concrete tables evaluate by `decide`. -/
attribute [local semireducible] Rat.add Rat.mul Rat.inv Rat.sub Rat.ofScientific

/-- A JavaScript runtime value as it can occur in a `DataTable` cell:
string, finite number (exact rational), the number `NaN`, boolean,
`Date` (epoch seconds), `null`, or `undefined` (absent property). -/
inductive Value where
  | str (s : String)
  | num (q : ℚ)
  | nan
  | bool (b : Bool)
  | date (t : ℤ)
  | null
  | undef
deriving DecidableEq, Repr

/-- A JS object used as a table row: an insertion-ordered association
list from property name to value (property names are unique in any row
built by the embedded operations). -/
abbrev Row := List (String × Value)

/-- Property read `row[k]` on a JS object: the value of the first entry
named `k`, or `undefined` when the property is absent. -/
def valueAt (r : Row) (k : String) : Value :=
  match r.find? (fun p => p.1 == k) with
  | some p => p.2
  | none => Value.undef

/-- Property-presence test `k in row`. -/
def hasKey (r : Row) (k : String) : Bool :=
  r.any (fun p => p.1 == k)

/-- Property assignment `row[k] = v` on a JS object: overwrite the
entry in place when the property exists (property names are unique in a
JS object, so the first occurrence is the only one), otherwise append
it. -/
def jsSet : Row → String → Value → Row
  | [], k, v => [(k, v)]
  | p :: r, k, v => if p.1 == k then (k, v) :: r else p :: jsSet r k v

/-- Decimal rendering of an integer, as JS renders an integral number. -/
def intToString (i : ℤ) : String :=
  if i < 0 then "-" ++ Nat.repr i.natAbs else Nat.repr i.natAbs

/-- Left-pad a natural's decimal form with zeros to width 2. -/
def pad2 (n : ℕ) : String :=
  if n < 10 then "0" ++ Nat.repr n else Nat.repr n

/-- Left-pad a natural's decimal form with zeros to width 4. -/
def pad4 (n : ℕ) : String :=
  if n < 10 then "000" ++ Nat.repr n
  else if n < 100 then "00" ++ Nat.repr n
  else if n < 1000 then "0" ++ Nat.repr n
  else Nat.repr n

/-- Days from 1970-01-01 to the civil date y-m-d (proleptic Gregorian),
the standard civil-from-days algorithm with truncating division (all
intermediate divisions act on non-negative operands). -/
def daysFromCivil (y : ℤ) (m d : ℕ) : ℤ :=
  let y : ℤ := y - (if m ≤ 2 then 1 else 0)
  let era : ℤ := (if 0 ≤ y then y else y - 399) / 400
  let yoe : ℤ := y - era * 400
  let mp : ℤ := ((m : ℤ) + 9) % 12
  let doy : ℤ := (153 * mp + 2) / 5 + (d : ℤ) - 1
  let doe : ℤ := yoe * 365 + yoe / 4 - yoe / 100 + doy
  era * 146097 + doe - 719468

/-- Civil date (y, m, d) of the day `z` days after 1970-01-01. -/
def civilFromDays (z : ℤ) : ℤ × ℕ × ℕ :=
  let z : ℤ := z + 719468
  let era : ℤ := (if 0 ≤ z then z else z - 146096) / 146097
  let doe : ℤ := z - era * 146097
  let yoe : ℤ := (doe - doe / 1460 + doe / 36524 - doe / 146096) / 365
  let y : ℤ := yoe + era * 400
  let doy : ℤ := doe - (365 * yoe + yoe / 4 - yoe / 100)
  let mp : ℤ := (5 * doy + 2) / 153
  let d : ℤ := doy - (153 * mp + 2) / 5 + 1
  let m : ℤ := mp + (if mp < 10 then 3 else -9)
  (y + (if m ≤ 2 then 1 else 0), m.toNat, d.toNat)

/-- Whether year `y` is a Gregorian leap year. -/
def isLeapYear (y : ℤ) : Bool :=
  y % 4 == 0 && (y % 100 != 0 || y % 400 == 0)

/-- Number of days in month `m` of year `y`. -/
def daysInMonth (y : ℤ) (m : ℕ) : ℕ :=
  if m == 2 then (if isLeapYear y then 29 else 28)
  else if m == 4 || m == 6 || m == 9 || m == 11 then 30
  else 31

/-- Value of a decimal digit character. -/
def digVal (c : Char) : Option ℕ :=
  if c.isDigit then some (c.toNat - 48) else none

/-- Read exactly two decimal digits from the front of a character list. -/
def read2 : List Char → Option (ℕ × List Char)
  | a :: b :: rest => do
    let x ← digVal a
    let y ← digVal b
    pure (x * 10 + y, rest)
  | _ => none

/-- Read exactly four decimal digits from the front of a character list. -/
def read4 : List Char → Option (ℕ × List Char)
  | a :: b :: c :: d :: rest => do
    let x ← digVal a
    let y ← digVal b
    let z ← digVal c
    let w ← digVal d
    pure (((x * 10 + y) * 10 + z) * 10 + w, rest)
  | _ => none

/-- Expect a literal character at the front of a character list. -/
def expectChar (c : Char) : List Char → Option (List Char)
  | a :: rest => if a == c then some rest else none
  | [] => none

/-- Parse the wall-clock part "YYYY-MM-DDTHH:MM:SS" of an ISO timestamp,
returning the wall-clock value in seconds since 1970-01-01 00:00:00 read
as if it were UTC, together with the unconsumed suffix.  Field ranges are
validated as the JS `Date` parser does (month 1-12, day within the
month, hour to 23, minute and second to 59). -/
def parseIsoWall (cs : List Char) : Option (ℤ × List Char) := do
  let (y, cs) ← read4 cs
  let cs ← expectChar '-' cs
  let (mo, cs) ← read2 cs
  let cs ← expectChar '-' cs
  let (d, cs) ← read2 cs
  let cs ← expectChar 'T' cs
  let (h, cs) ← read2 cs
  let cs ← expectChar ':' cs
  let (mi, cs) ← read2 cs
  let cs ← expectChar ':' cs
  let (s, cs) ← read2 cs
  if 1 ≤ mo ∧ mo ≤ 12 ∧ 1 ≤ d ∧ d ≤ daysInMonth (y : ℤ) mo ∧ h ≤ 23 ∧ mi ≤ 59 ∧ s ≤ 59 then
    pure (daysFromCivil (y : ℤ) mo d * 86400 + ((h * 3600 + mi * 60 + s : ℕ) : ℤ), cs)
  else none

/-- Parse an optional zone suffix: nothing (zone-naive), "Z", or a
"±HH:MM" / "±HHMM" offset.  Returns the offset in minutes, `none` inside
the option meaning the string is zone-naive. -/
def parseZoneSuffix : List Char → Option (Option ℤ)
  | [] => some none
  | ['Z'] => some (some 0)
  | c :: rest =>
    if c == '+' || c == '-' then
      match read2 rest with
      | some (hh, rest) =>
        let rest := match rest with
          | ':' :: rest2 => rest2
          | _ => rest
        match read2 rest with
        | some (mm, []) =>
          if hh ≤ 23 ∧ mm ≤ 59 then
            let mins : ℤ := (hh * 60 + mm : ℕ)
            some (some (if c == '-' then -mins else mins))
          else none
        | _ => none
      | none => none
    else none

/-- Parse an ISO timestamp into its wall-clock seconds and optional zone
offset (minutes). -/
def parseIso (s : String) : Option (ℤ × Option ℤ) := do
  let (wall, rest) ← parseIsoWall s.toList
  let off ← parseZoneSuffix rest
  pure (wall, off)

/-- The JS `new Date(string)` constructor on an ISO-like timestamp
string: a zone-qualified string yields the instant computed from its
declared offset; a zone-naive date-time string is interpreted in the
process's local zone, whose offset east of UTC in minutes is the
explicit parameter `localOffMin`.  `none` models an Invalid Date (whose
`toISOString` throws). -/
def jsDateParse (s : String) (localOffMin : ℤ) : Option ℤ := do
  let (wall, off) ← parseIso s
  pure (wall - (off.getD localOffMin) * 60)

/-- The method `Date.prototype.toISOString` on a valid date: render epoch seconds
as "YYYY-MM-DDTHH:MM:SS.000Z" (all embedded instants are whole
seconds). -/
def isoRender (t : ℤ) : String :=
  let z : ℤ := t / 86400 - (if t % 86400 < 0 then 1 else 0)
  let secs : ℕ := (t - z * 86400).toNat
  let c := civilFromDays z
  pad4 c.1.toNat ++ "-" ++ pad2 c.2.1 ++ "-" ++ pad2 c.2.2 ++ "T" ++
    pad2 (secs / 3600) ++ ":" ++ pad2 ((secs / 60) % 60) ++ ":" ++ pad2 (secs % 60) ++ ".000Z"

/-- JS template-literal stringification of a number.  Integral values
render as their decimal form, as JS does; the embedded tables only ever
stringify integral numbers, so the non-integral fallback (which JS would
print as a finite or shortest-round-trip decimal) uses an explicit
fraction rendering — no theorem depends on it. -/
def ratToJsString (q : ℚ) : String :=
  if q.den = 1 then intToString q.num
  else intToString q.num ++ "/" ++ Nat.repr q.den

/-- JS template-literal stringification of a value, as used by the
group-key and row-key builders.  A `Date` inside a template literal
would render as a locale string; it is rendered here by `isoRender`
(grouping columns never hold dates, so no theorem depends on it). -/
def jsToString : Value → String
  | Value.str s => s
  | Value.num q => ratToJsString q
  | Value.nan => "NaN"
  | Value.bool true => "true"
  | Value.bool false => "false"
  | Value.date t => isoRender t
  | Value.null => "null"
  | Value.undef => "undefined"

/-- JS `ToNumber` coercion, partially: `none` is `NaN`.  String inputs
are not numerically parsed here (the embedded comparisons and sums are
only applied to non-string operands under the theorems' typing
hypotheses); a string coerces to `none`. -/
def toNumberV : Value → Option ℚ
  | Value.num q => some q
  | Value.nan => none
  | Value.bool true => some 1
  | Value.bool false => some 0
  | Value.null => some 0
  | Value.undef => none
  | Value.date t => some (t : ℚ)
  | Value.str _ => none

/-- The JS `<` abstract relational comparison: two strings compare
lexicographically; otherwise both operands coerce to numbers and any
`NaN` makes the comparison false. -/
def jsLt (a b : Value) : Bool :=
  match a, b with
  | Value.str x, Value.str y => decide (x < y)
  | _, _ =>
    match toNumberV a, toNumberV b with
    | some x, some y => decide (x < y)
    | _, _ => false

/-- The JS `+` operator: string (or `Date`) operands concatenate after
stringification, otherwise the operands add numerically with `NaN`
propagation. -/
def jsAdd (a b : Value) : Value :=
  match a, b with
  | Value.str x, _ => Value.str (x ++ jsToString b)
  | _, Value.str y => Value.str (jsToString a ++ y)
  | Value.date t, _ => Value.str (isoRender t ++ jsToString b)
  | _, Value.date t => Value.str (jsToString a ++ isoRender t)
  | _, _ =>
    match toNumberV a, toNumberV b with
    | some x, some y => Value.num (x + y)
    | _, _ => Value.nan

section ZoneSuffixRegex

/-- Matches the regex alternative "\.\d+Z$": a dot, one or more digits,
then a final Z. -/
def altFracZ (cs : List Char) : Bool :=
  match cs with
  | '.' :: rest =>
    let ds := rest.takeWhile Char.isDigit
    ds ≠ [] && rest.dropWhile Char.isDigit == ['Z']
  | _ => false

/-- Matches the regex alternative "\.\d+[+-]\d+:\d+$". -/
def altFracOffset (cs : List Char) : Bool :=
  match cs with
  | '.' :: rest =>
    let ds := rest.takeWhile Char.isDigit
    match rest.dropWhile Char.isDigit with
    | c :: rest2 =>
      ds ≠ [] && (c == '+' || c == '-') &&
        (let ds2 := rest2.takeWhile Char.isDigit
         ds2 ≠ [] &&
           (match rest2.dropWhile Char.isDigit with
            | ':' :: rest3 => rest3 ≠ [] && rest3.all Char.isDigit
            | _ => false))
    | [] => false
  | _ => false

/-- Matches the regex alternative "Z$". -/
def altZ (cs : List Char) : Bool :=
  cs == ['Z']

/-- Matches the regex alternative "[+-]\d+:\d+$". -/
def altOffset (cs : List Char) : Bool :=
  match cs with
  | c :: rest =>
    (c == '+' || c == '-') &&
      (let ds := rest.takeWhile Char.isDigit
       ds ≠ [] &&
         (match rest.dropWhile Char.isDigit with
          | ':' :: rest2 => rest2 ≠ [] && rest2.all Char.isDigit
          | _ => false))
  | [] => false

/-- Whether one of the four end-anchored alternatives of the zone-suffix
regex matches at this position, i.e. matches this entire suffix.  Since
every alternative is anchored at the end of the string and a digit can
never follow the final "\d+" of a match, maximal-munch digit runs agree
with the backtracking regex engine here. -/
def zoneSuffixAt (cs : List Char) : Bool :=
  altFracZ cs || altFracOffset cs || altZ cs || altOffset cs

/-- String.replace with the zone-suffix regex
"\.\d+Z$|\.\d+[+-]\d+:\d+$|Z$|[+-]\d+:\d+$" (no global flag): replace
the leftmost match — which, all alternatives being end-anchored, is the
whole suffix from the earliest position where one matches — by `repl`.
A string with no zone suffix is returned unchanged. -/
def replaceZoneSuffixAux (repl : List Char) : List Char → List Char
  | [] => []
  | c :: rest =>
    if zoneSuffixAt (c :: rest) then repl
    else c :: replaceZoneSuffixAux repl rest

/-- The zone-suffix replacement on strings. -/
def replaceZoneSuffix (s repl : String) : String :=
  String.mk (replaceZoneSuffixAux repl.toList s.toList)

end ZoneSuffixRegex

/-- src/datatable.ts:1136 (the variant used by `transformTimeSeriesTable`):
replace any trailing zone suffix of the timestamp string by the supplied
offset string and hand the result to `new Date(...)`.  A string that had
no zone suffix is passed through unchanged, so it is parsed in the
process's local zone (`localOffMin`, minutes east of UTC). -/
def createNetworkDate (isoString timezoneOffset : String) (localOffMin : ℤ) : Option ℤ :=
  let localIsoString := replaceZoneSuffix isoString timezoneOffset
  jsDateParse localIsoString localOffMin

/-- First match of the regex "([+-])(\d{2}):(\d{2})" anywhere in the
character list, as signed minutes. -/
def findOffsetMatch : List Char → Option ℤ
  | [] => none
  | c :: rest =>
    if c == '+' || c == '-' then
      match rest with
      | h1 :: h2 :: ':' :: m1 :: m2 :: _ =>
        match digVal h1, digVal h2, digVal m1, digVal m2 with
        | some a, some b, some x, some y =>
          let mins : ℤ := ((a * 10 + b) * 60 + (x * 10 + y) : ℕ)
          some (if c == '-' then -mins else mins)
        | _, _, _, _ => findOffsetMatch rest
      | _ => findOffsetMatch rest
    else findOffsetMatch rest

/-- src/datatable.ts:268 (the earlier variant): parse the string with
`new Date(...)` (local-zone interpretation of zone-naive strings), then
shift the epoch by `date.getTimezoneOffset() + offsetMinutes` minutes,
where `getTimezoneOffset()` is UTC minus local, i.e. `-localOffMin`. -/
def createNetworkDateV1 (isoString timezoneOffset : String) (localOffMin : ℤ) : Option ℤ :=
  match jsDateParse isoString localOffMin with
  | none => none
  | some t =>
    match findOffsetMatch timezoneOffset.toList with
    | none => some t
    | some offsetMinutes => some (t + (-localOffMin + offsetMinutes) * 60)

/-- Modelled from the spec: `createNetworkDate` of src/datetime.ts is
imported by `DataTable.fromNetworkTimeSeries` but its definition is not
among the source files (only its callers and tests are).  Per spec §4.1,
network time reconstruction strips any existing zone suffix from the
timestamp, attaches the supplied offset string in its place (a
zone-naive string simply gains the offset), and parses the result as a
zone-aware timestamp, independent of the process's local zone; a
malformed timestamp is a hard failure (`none`). -/
def createNetworkDateSpec (isoString timezoneOffset : String) : Option ℤ := do
  let stripped := String.mk (replaceZoneSuffixAux [] isoString.toList)
  let (wall, off) ← parseIso (stripped ++ timezoneOffset)
  match off with
  | some o => pure (wall - o * 60)
  | none => none

section StableSort

variable {α : Type _}

/-- Insert an element into a list, placing it before the first element
it is strictly less than (`lt a b` models `comparator(a, b) < 0`).  An
element is therefore placed after every earlier element it does not
strictly precede, which is exactly the stable placement of
`Array.prototype.sort`. -/
def jsSortInsert (lt : α → α → Bool) (a : α) : List α → List α
  | [] => [a]
  | b :: l => if lt a b then a :: b :: l else b :: jsSortInsert lt a l

/-- The stable sort modelling `Array.prototype.sort` with a comparator:
fold the input left to right, inserting each element into the sorted
prefix. -/
def jsSort (lt : α → α → Bool) (l : List α) : List α :=
  l.foldl (fun acc a => jsSortInsert lt a acc) []

end StableSort

section AssocList

variable {β : Type _}

/-- JS `Map.prototype.get`: value of the first (only) entry with this
key. -/
def assocFind? (m : List (String × β)) (k : String) : Option β :=
  match m.find? (fun p => p.1 == k) with
  | some p => some p.2
  | none => none

/-- JS `Map.prototype.set`: update the entry in place when the key is
present (keys are unique in a `Map`), otherwise append. -/
def assocSet : List (String × β) → String → β → List (String × β)
  | [], k, v => [(k, v)]
  | p :: m, k, v => if p.1 == k then (p.1, v) :: m else p :: assocSet m k v

end AssocList

/-- The private cache of a `DataTable` (interface `IDataTableCache`):
sorted-row and grouped-row results keyed by a string cache key, and the
per-grouping-column value indexes built by the constructor.  The
`latestTimestamp` memo is not modelled (no claim concerns it).
`groupedRows` stores, exactly as the source does, the raw partition (the
un-aggregated row groups), not the aggregated result rows. -/
structure DTCache where
  sortedRows : List (String × List Row)
  groupedRows : List (String × List (String × List Row))
  columnIndexes : List (String × List (Value × List Row))
deriving Repr

/-- Append a row under a value key of a column index, creating the
entry at the end when the value is new (`Map` keys are unique under
SameValueZero, which `Value` equality models). -/
def pushIndex : List (Value × List Row) → Value → Row → List (Value × List Row)
  | [], v, r => [(v, [r])]
  | p :: idx, v, r =>
    if p.1 == v then (p.1, p.2 ++ [r]) :: idx else p :: pushIndex idx v r

/-- The `columnIndexes` built by the `DataTable` constructor: for every
grouping column, a map from each occurring value (except `null` and
`Date` values, which are skipped) to the rows holding it, in first-seen
order. -/
def createColumnIndexes (rows : List Row) (groupings : List String) :
    List (String × List (Value × List Row)) :=
  groupings.map (fun column =>
    (column,
      rows.foldl (fun columnIndex row =>
        let value := valueAt row column
        if value matches Value.null | Value.date _ then columnIndex
        else pushIndex columnIndex value row) []))

/-- The `DataTable` class of src/datatable.ts (the cached variant,
lines 315-762): rows, grouping-column list, metric-to-unit map, and the
private cache. -/
structure DataTable where
  rows : List Row
  groupings : List String
  metrics : List (String × String)
  cache : DTCache
deriving Repr

/-- The `DataTable` constructor: store rows, groupings and metrics, and
build the column indexes from the rows as passed; the other caches start
empty. -/
def mkDataTable (rows : List Row) (groupings : List String)
    (metrics : List (String × String)) : DataTable :=
  { rows := rows, groupings := groupings, metrics := metrics,
    cache := { sortedRows := [], groupedRows := [],
               columnIndexes := createColumnIndexes rows groupings } }

/-- The aggregation selector of `groupBy`. -/
inductive Aggregation where
  | sum
  | mean
deriving DecidableEq, Repr

/-- The string form of an aggregation, as it appears in cache keys. -/
def aggName : Aggregation → String
  | Aggregation.sum => "sum"
  | Aggregation.mean => "mean"

/-- The group key of a row: `columns.map(col => `col:value`).join("_")`,
the naive stringified join of the source. -/
def groupKeyOf (columns : List String) (row : Row) : String :=
  String.intercalate "_" (columns.map (fun col => col ++ ":" ++ jsToString (valueAt row col)))

/-- Append a row to the group with this key, and when the key is new
create the group at the end — the upsert `groups.get(groupKey).push(row)` /
`groups.set(groupKey, [])` of the source, preserving Map insertion
order. -/
def insertGroup : List (String × List Row) → String → Row → List (String × List Row)
  | [], k, r => [(k, [r])]
  | (k', g) :: rest, k, r =>
    if k' = k then (k', g ++ [r]) :: rest else (k', g) :: insertGroup rest k r

/-- The single-pass grouping loop of `groupBy`: partition the rows by
their group key, groups in first-seen order, rows in original order. -/
def partitionRows (columns : List String) (rows : List Row) : List (String × List Row) :=
  rows.foldl (fun groups row => insertGroup groups (groupKeyOf columns row) row) []

/-- The values of metric `metric` collected from a group by the
aggregation loop: per row, `row[metric]` is kept unless it is `null`, is
the number `NaN` (the `Number.isNaN` test), or is `undefined` (a hole or
explicit `undefined` entry, removed by the `v !== undefined` filter). -/
def collectValid (groupRows : List Row) (metric : String) : List Value :=
  groupRows.filterMap (fun row =>
    let value := valueAt row metric
    if value = Value.null ∨ value = Value.nan ∨ value = Value.undef then none
    else some value)

/-- The reduction `values.reduce((a, b) => a + b, 0)` with JS addition. -/
def jsReduceAdd (values : List Value) : Value :=
  values.foldl jsAdd (Value.num 0)

/-- The division `sum / values.length` with JS division semantics: the dividend coerces to a
number, a `NaN` dividend yields `NaN` (the divisor is a positive
length wherever this is applied). -/
def jsDivLen (v : Value) (n : ℕ) : Value :=
  match toNumberV v with
  | some x => Value.num (x / (n : ℚ))
  | none => Value.nan

/-- The aggregated value of one metric over one group: `null` when the
group has no valid values, otherwise their sum, divided by the count
for a mean. -/
def aggValueOf (aggregation : Aggregation) (values : List Value) : Value :=
  if values = [] then Value.null
  else
    let sum := jsReduceAdd values
    match aggregation with
    | Aggregation.sum => sum
    | Aggregation.mean => jsDivLen sum values.length

/-- The output row emitted by `groupBy` for one group: the `interval` of
the group's first row, the group-key column values of the first row, and
every metric's aggregated value. -/
def aggRowOf (metricNames : List String) (columns : List String)
    (aggregation : Aggregation) (groupRows : List Row) : Row :=
  let firstRow := groupRows.headD []
  let base := columns.foldl (fun acc col => jsSet acc col (valueAt firstRow col))
    [("interval", valueAt firstRow "interval")]
  metricNames.foldl (fun acc metric =>
    jsSet acc metric (aggValueOf aggregation (collectValid groupRows metric))) base

/-- The cache key of a `groupBy` or `sortBy` invocation:
`columns.join("_")` followed by the aggregation name or the ascending
flag. -/
def cacheKeyOf (columns : List String) (tail : String) : String :=
  String.intercalate "_" columns ++ "_" ++ tail

/-- Method `DataTable.groupBy` (src/datatable.ts:553-649).  Returns the result
table together with the receiver as left after the call, since the
method mutates the receiver's private cache: a cache miss computes the
aggregation and stores the *raw groups* under the cache key; a cache hit
returns a table of the flattened cached groups. -/
def DataTable.groupBy (t : DataTable) (columns : List String)
    (aggregation : Aggregation) : DataTable × DataTable :=
  let cacheKey := cacheKeyOf columns (aggName aggregation)
  match assocFind? t.cache.groupedRows cacheKey with
  | some cachedGroups =>
    (mkDataTable (cachedGroups.map (fun p => p.2)).flatten columns t.metrics, t)
  | none =>
    let groups := partitionRows columns t.rows
    let metricNames := t.metrics.map (fun p => p.1)
    let newRows := groups.map (fun p => aggRowOf metricNames columns aggregation p.2)
    let t' := { t with cache := { t.cache with
      groupedRows := assocSet t.cache.groupedRows cacheKey groups } }
    (mkDataTable newRows columns t.metrics, t')

/-- The probe flip of `tryIndexFilter`:
`value === true ? false : value === false ? true : value === 0 ? 1 : 0`. -/
def flipValue : Value → Value
  | Value.bool true => Value.bool false
  | Value.bool false => Value.bool true
  | Value.num q => if q = 0 then Value.num 1 else Value.num 0
  | _ => Value.num 0

/-- The inner loop of `tryIndexFilter` over one column's index: for each
indexed value, probe the condition on the table's first row with the
column set to the value and to its flip; on the first value where the
condition holds for the former and fails for the latter, return a table
of that value's indexed rows. -/
def scanIndexValues (firstRow : Row) (condition : Row → Bool) (column : String)
    (groupings : List String) (metrics : List (String × String)) :
    List (Value × List Row) → Option DataTable
  | [] => none
  | (value, rows) :: rest =>
    let testRow := jsSet firstRow column value
    let otherValues := jsSet testRow column (flipValue value)
    if condition testRow && !condition otherValues then
      some (mkDataTable rows groupings metrics)
    else scanIndexValues firstRow condition column groupings metrics rest

/-- The outer loop of `tryIndexFilter` over the column indexes. -/
def scanIndexColumns (firstRow : Row) (condition : Row → Bool)
    (groupings : List String) (metrics : List (String × String)) :
    List (String × List (Value × List Row)) → Option DataTable
  | [] => none
  | (column, columnIndex) :: rest =>
    match scanIndexValues firstRow condition column groupings metrics columnIndex with
    | some res => some res
    | none => scanIndexColumns firstRow condition groupings metrics rest

/-- Method `DataTable.tryIndexFilter` (src/datatable.ts:495-519): attempt to
serve a filter from the constructor-built column indexes by probing the
condition on mutated copies of the first row; `none` when no
(column, value) probe matches or the table has no rows. -/
def DataTable.tryIndexFilter (t : DataTable) (condition : Row → Bool) : Option DataTable :=
  match t.rows with
  | [] => none
  | firstRow :: _ =>
    scanIndexColumns firstRow condition t.groupings t.metrics t.cache.columnIndexes

/-- Method `DataTable.filter` (src/datatable.ts:483-493): serve the filter from
an index probe when one matches, otherwise filter the rows with the
condition. -/
def DataTable.filter (t : DataTable) (condition : Row → Bool) : DataTable :=
  match t.tryIndexFilter condition with
  | some indexedFilter => indexedFilter
  | none => mkDataTable (t.rows.filter condition) t.groupings t.metrics

/-- The comparator of `sortBy`: walk the columns; `null` sorts before
everything when ascending and after everything when descending; the
first column comparing unequal (by JS `<`) decides. -/
def rowCompare (columns : List String) (ascending : Bool) (a b : Row) : ℤ :=
  match columns with
  | [] => 0
  | col :: rest =>
    let aVal := valueAt a col
    let bVal := valueAt b col
    if aVal = Value.null ∧ bVal = Value.null then rowCompare rest ascending a b
    else if aVal = Value.null then (if ascending then -1 else 1)
    else if bVal = Value.null then (if ascending then 1 else -1)
    else if jsLt aVal bVal then (if ascending then -1 else 1)
    else if jsLt bVal aVal then (if ascending then 1 else -1)
    else rowCompare rest ascending a b

/-- Method `DataTable.sortBy` (src/datatable.ts:654-683).  Returns the result
table together with the receiver as left after the call: a cache miss
sorts a copy of the rows with the comparator and stores the sorted rows
under the cache key; a cache hit returns a table of the cached rows. -/
def DataTable.sortBy (t : DataTable) (columns : List String) (ascending : Bool) :
    DataTable × DataTable :=
  let cacheKey := cacheKeyOf columns (if ascending then "true" else "false")
  match assocFind? t.cache.sortedRows cacheKey with
  | some cachedRows => (mkDataTable cachedRows t.groupings t.metrics, t)
  | none =>
    let sortedRows := jsSort (fun a b => decide (rowCompare columns ascending a b < 0)) t.rows
    let t' := { t with cache := { t.cache with
      sortedRows := assocSet t.cache.sortedRows cacheKey sortedRows } }
    (mkDataTable sortedRows t.groupings t.metrics, t')

/-- The result record of `describe` (interface `IDescribeResult`).  The
source's `std` field holds `Math.sqrt(variance)`; it is represented here
by its square, the population `variance` itself, since the other seven
fields and the variance are exact rationals. -/
structure IDescribeResult where
  count : ℕ
  mean : ℚ
  variance : ℚ
  min : ℚ
  q25 : ℚ
  median : ℚ
  q75 : ℚ
  max : ℚ
deriving DecidableEq, Repr

/-- The JS `typeof value === "number"` test: finite numbers and `NaN`. -/
def isNumberType : Value → Bool
  | Value.num _ => true
  | Value.nan => true
  | _ => false

/-- The columns `describe` works on: the keys of the first row (an empty
table has none) whose value in the first row has type number. -/
def numericColumnsOf (rows : List Row) : List String :=
  let firstRow := rows.headD []
  (firstRow.map (fun p => p.1)).filter (fun key => isNumberType (valueAt firstRow key))

/-- The valid values of a column for `describe`: the values that are
numbers and not `NaN`, in row order. -/
def validNumsOf (rows : List Row) (column : String) : List ℚ :=
  rows.filterMap (fun row =>
    match valueAt row column with
    | Value.num q => some q
    | _ => none)

/-- A column's valid values sorted ascending with the numeric comparator
`(a, b) => a - b`. -/
def sortedValsOf (rows : List Row) (column : String) : List ℚ :=
  jsSort (fun a b => decide (a < b)) (validNumsOf rows column)

/-- Method `DataTable.describe` (src/datatable.ts:701-754): for every column
numeric on the first row, compute count, mean, population variance
(`std` is its square root), min and max, and the nearest-rank quantiles
at the ascending-sorted indexes `floor(count * q)`; a column with no
valid values is omitted.  The float products `count * 0.25`,
`count * 0.5` and `count * 0.75` are exact for any array length, so
their floors are the integer divisions `count / 4`, `count / 2` and
`count * 3 / 4`. -/
def describeColumn (rows : List Row) (column : String) : Option IDescribeResult :=
  let values := sortedValsOf rows column
  if values = [] then none
  else
    let count := values.length
    let sum := values.foldl (fun a b => a + b) 0
    let mean := sum / (count : ℚ)
    let variance := (values.foldl (fun acc value => acc + (value - mean) ^ 2) 0) / (count : ℚ)
    some
      { count := count, mean := mean, variance := variance,
        min := values.getD 0 0, q25 := values.getD (count / 4) 0,
        median := values.getD (count / 2) 0, q75 := values.getD (count * 3 / 4) 0,
        max := values.getD (count - 1) 0 }

/-- The full `describe`: one record per numeric column with at least one
valid value, in first-row key order. -/
def DataTable.describe (t : DataTable) : List (String × IDescribeResult) :=
  (numericColumnsOf t.rows).filterMap (fun column =>
    (describeColumn t.rows column).map (fun stats => (column, stats)))

/-- One result block of a series (interface `ITimeSeriesResult`): a
name, the grouping-column values of the block, and the (timestamp
string, number-or-null value) pairs. -/
structure ITimeSeriesResult where
  name : String
  columns : List (String × Value)
  data : List (String × Value)
deriving Repr

/-- One series of the API response (interface `INetworkTimeSeries`),
with the fields the materialization reads. -/
structure INetworkTimeSeries where
  metric : String
  unit : String
  groupings : List String
  results : List ITimeSeriesResult
  network_timezone_offset : String
deriving Repr

/-- The runtime failures `fromNetworkTimeSeries` can raise: reading
`data[0].groupings` of an empty array (a TypeError), and
`date.toISOString()` on an unparseable timestamp (a RangeError on an
Invalid Date). -/
inductive MatErr where
  | emptyInput
  | invalidDate
deriving DecidableEq, Repr

/-- The row key used by the materialization:
`[dateKey, ...Object.entries(result.columns).map(k:v)].join("_")`. -/
def rowKeyFor (dateKey : String) (columns : List (String × Value)) : String :=
  String.intercalate "_" (dateKey :: columns.map (fun p => p.1 ++ ":" ++ jsToString p.2))

/-- Process one `[timestamp, value]` pair of one result block: compute
the network date and the row key; update the row already stored under
the key, or create a row of the interval, the block's columns and this
series' metric value.  The state is the `rowsMap` of the table under
construction, whose values in insertion order are the table's `rows`
array (a row is created at most once and then mutated in place, so the
map determines the array). -/
def processDatum (metric offset : String) (columns : List (String × Value))
    (st : List (String × Row)) (datum : String × Value) :
    Except MatErr (List (String × Row)) :=
  match createNetworkDateSpec datum.1 offset with
  | none => Except.error MatErr.invalidDate
  | some date =>
    let rowKey := rowKeyFor (isoRender date) columns
    match assocFind? st rowKey with
    | some row => Except.ok (assocSet st rowKey (jsSet row metric datum.2))
    | none =>
      let row := jsSet (columns.foldl (fun acc p => jsSet acc p.1 p.2)
        [("interval", Value.date date)]) metric datum.2
      Except.ok (st ++ [(rowKey, row)])

/-- Process the data pairs of one result block. -/
def processResult (metric offset : String) (st : List (String × Row))
    (result : ITimeSeriesResult) : Except MatErr (List (String × Row)) :=
  result.data.foldlM (processDatum metric offset result.columns) st

/-- Process the result blocks of one series. -/
def processSeries (st : List (String × Row)) (series : INetworkTimeSeries) :
    Except MatErr (List (String × Row)) :=
  series.results.foldlM (processResult series.metric series.network_timezone_offset) st

/-- The `getTime()` of a row's `interval` Date. -/
def intervalTime (r : Row) : ℤ :=
  match valueAt r "interval" with
  | Value.date t => t
  | _ => 0

/-- Method `DataTable.fromNetworkTimeSeries` (src/datatable.ts:340-387): read
the groupings off the first series (failing on an empty array), take the
union of the series' metric/unit pairs, fold every series' data points
into the shared row map, and sort the rows ascending by interval.  The
table was constructed while its rows array was still empty and the rows
were pushed into it afterwards, so the column indexes of the returned
table are the empty per-column maps, not indexes over the final rows. -/
def DataTable.fromNetworkTimeSeries (data : List INetworkTimeSeries) :
    Except MatErr DataTable :=
  match data with
  | [] => Except.error MatErr.emptyInput
  | d0 :: _ => do
    let groupings := d0.groupings
    let metrics := data.foldl (fun m s => assocSet m s.metric s.unit) []
    let st ← data.foldlM processSeries []
    let rows := st.map (fun p => p.2)
    let sortedRows := jsSort (fun a b => decide (intervalTime a < intervalTime b)) rows
    Except.ok
      { rows := sortedRows, groupings := groupings, metrics := metrics,
        cache := { sortedRows := [], groupedRows := [],
                   columnIndexes := groupings.map (fun g => (g, [])) } }

/-- Function `createDataTable` (src/datatable.ts:760): delegate to
`DataTable.fromNetworkTimeSeries`. -/
def createDataTable (data : List INetworkTimeSeries) : Except MatErr DataTable :=
  DataTable.fromNetworkTimeSeries data

/-- Specification-side reading of a cell for summation: a number is
itself, everything else (in particular `null`) contributes zero. -/
def numOr0 : Value → ℚ
  | Value.num q => q
  | _ => 0

/-- Specification-side "sum of `row[m]` over rows, ignoring nulls". -/
def sumIgnoringNulls (m : String) (rows : List Row) : ℚ :=
  (rows.map (fun r => numOr0 (valueAt r m))).sum

/-- Specification-side aggregate of the claims: `null` on an empty valid
list, otherwise the exact sum or arithmetic mean. -/
def specAgg (aggregation : Aggregation) (qs : List ℚ) : Value :=
  if qs = [] then Value.null
  else
    Value.num (match aggregation with
      | Aggregation.sum => qs.sum
      | Aggregation.mean => qs.sum / (qs.length : ℚ))

/-- The metric names of a table, in metric-map insertion order. -/
def metricNamesOf (t : DataTable) : List String :=
  t.metrics.map (fun p => p.1)

/-- A cell value a metric may hold in a well-typed table: a number,
`NaN`, `null`, or absent. -/
def isMetricValueOk : Value → Bool
  | Value.null => true
  | Value.nan => true
  | Value.undef => true
  | Value.num _ => true
  | _ => false

/-- A cell value a metric holds in a strictly numeric column: a number
or `null`. -/
def isNumOrNull : Value → Bool
  | Value.null => true
  | Value.num _ => true
  | _ => false

/-- The homogeneous comparable kinds a sortable column can have: every
JS value type the tables carry except `null` (which the comparator
handles specially), `NaN` and `undefined` (for which the JS comparator
is inconsistent and sort order is implementation-determined). -/
inductive ValueKind where
  | num
  | str
  | bool
  | date
deriving DecidableEq, Repr

/-- Whether a value is of the given kind. -/
def kindIs : ValueKind → Value → Bool
  | ValueKind.num, Value.num _ => true
  | ValueKind.str, Value.str _ => true
  | ValueKind.bool, Value.bool _ => true
  | ValueKind.date, Value.date _ => true
  | _, _ => false

/-- A cell of a homogeneous sortable column: `null` or a value of the
column's kind. -/
def isNullOrKind (k : ValueKind) (v : Value) : Bool :=
  v == Value.null || kindIs k v

/-- The non-decreasing order on same-kind values, as the JS comparator
orders them: numeric order on numbers and on `Date` epochs,
lexicographic order on strings, false before true on booleans (their
numeric coercions). -/
def valueLe : Value → Value → Prop
  | Value.num a, Value.num b => a ≤ b
  | Value.str a, Value.str b => a ≤ b
  | Value.bool a, Value.bool b => a = false ∨ b = true
  | Value.date a, Value.date b => a ≤ b
  | _, _ => False

/-- Total of a metric-reading function over all rows of all groups. -/
def groupTotal (f : Row → ℚ) (groups : List (String × List Row)) : ℚ :=
  (groups.map (fun p => (p.2.map f).sum)).sum

/-- Unwrap a materialization result for concrete fixtures (all fixture
inputs succeed). -/
def tableOf (e : Except MatErr DataTable) : DataTable :=
  match e with
  | Except.ok t => t
  | Except.error _ => mkDataTable [] [] []

/-- Fixture: first row of the two-row table probing the filter index. -/
def rowA : Row := [("interval", Value.date 0), ("a", Value.num 1), ("b", Value.num 2)]

/-- Fixture: second row of the two-row table probing the filter index. -/
def rowB : Row := [("interval", Value.date 0), ("a", Value.num 1), ("b", Value.num 3)]

/-- Fixture: a table with grouping columns a and b whose rows share the
value at a and differ at b. -/
def filterProbeTable : DataTable := mkDataTable [rowA, rowB] ["a", "b"] [("m", "MWh")]

/-- Fixture: the two-column predicate a = 1 and b = 2, satisfied by
`rowA` only. -/
def filterProbePred (r : Row) : Bool :=
  valueAt r "a" == Value.num 1 && valueAt r "b" == Value.num 2

/-- Fixture: first row of the one-group table probing the group cache. -/
def dupRow1 : Row := [("interval", Value.date 0), ("g", Value.str "A"), ("m", Value.num 1)]

/-- Fixture: second row of the one-group table probing the group cache. -/
def dupRow2 : Row := [("interval", Value.date 0), ("g", Value.str "A"), ("m", Value.num 2)]

/-- Fixture: a table whose two rows fall into a single group. -/
def cacheProbeTable : DataTable := mkDataTable [dupRow1, dupRow2] ["g"] [("m", "MWh")]

/-- Fixture: a row whose grouping value is `null`. -/
def nullKeyRow1 : Row := [("interval", Value.date 0), ("x", Value.null), ("m", Value.num 1)]

/-- Fixture: a row whose grouping value is the string "null". -/
def nullKeyRow2 : Row := [("interval", Value.date 0), ("x", Value.str "null"), ("m", Value.num 2)]

/-- Fixture: a table whose two rows have distinct grouping values with
the same stringification. -/
def keyCollisionTable : DataTable := mkDataTable [nullKeyRow1, nullKeyRow2] ["x"] [("m", "MWh")]

/-- Fixture: a series of metric m1 with a single data point on day 1. -/
def seriesM1 : INetworkTimeSeries :=
  { metric := "m1", unit := "u1", groupings := ["g"],
    results := [{ name := "blockA1", columns := [("g", Value.str "A")],
                  data := [("2024-01-01T00:00:00", Value.num 1)] }],
    network_timezone_offset := "+10:00" }

/-- Fixture: a series of metric m2 with a single data point on day 2,
so its only row key is disjoint from that of `seriesM1`. -/
def seriesM2 : INetworkTimeSeries :=
  { metric := "m2", unit := "u2", groupings := ["g"],
    results := [{ name := "blockA2", columns := [("g", Value.str "A")],
                  data := [("2024-01-02T00:00:00", Value.num 2)] }],
    network_timezone_offset := "+10:00" }

/-- Fixture: the table materialized from the two disjoint-key series. -/
def disjointKeysTable : DataTable :=
  tableOf (DataTable.fromNetworkTimeSeries [seriesM1, seriesM2])

/-- Fixture: a single-column row holding the number `n`. -/
def statRow (n : ℚ) : Row := [("interval", Value.date 0), ("v", Value.num n)]

/-- Fixture: the one-numeric-column three-value table of the describe
scenario. -/
def describeProbeTable : DataTable :=
  mkDataTable [statRow 1, statRow 2, statRow 3] [] [("v", "MWh")]

/-- Fixture: a three-row table with a null cell for the sort scenario. -/
def sortProbeTable : DataTable :=
  mkDataTable [[("interval", Value.date 0), ("v", Value.num 2)],
               [("interval", Value.date 1), ("v", Value.null)],
               [("interval", Value.date 2), ("v", Value.num 1)]] [] [("v", "MWh")]

/-- Where a row key can originate during materialization: the `interval`
field, a grouping column of some result block of the input, or the
metric name of some input series. -/
def KeyOK (data : List INetworkTimeSeries) (k : String) : Prop :=
  k = "interval" ∨
  (∃ s ∈ data, ∃ res ∈ s.results, k ∈ res.columns.map (fun p => p.1)) ∨
  (∃ s ∈ data, s.metric = k)

/-- Invariant of the materialization state: every key of every row so
far originates per `KeyOK`. -/
def InvC3 (data : List INetworkTimeSeries) (st : List (String × Row)) : Prop :=
  ∀ p ∈ st, ∀ k, hasKey p.2 k = true → KeyOK data k

theorem jsSortInsert_perm {α : Type _} (lt : α → α → Bool) (a : α) (l : List α) :
    List.Perm (jsSortInsert lt a l) (a :: l) := by
  induction l with
  | nil => simp [jsSortInsert]
  | cons b l ih =>
    simp only [jsSortInsert]
    by_cases h : lt a b
    · simp [h]
    · simp only [h, Bool.false_eq_true, if_false]
      exact (ih.cons b).trans (List.Perm.swap a b l)

theorem jsSort_perm_aux {α : Type _} (lt : α → α → Bool) (l acc : List α) :
    List.Perm (l.foldl (fun acc a => jsSortInsert lt a acc) acc) (acc ++ l) := by
  induction l generalizing acc with
  | nil => simp
  | cons a l ih =>
    simp only [List.foldl_cons]
    refine (ih (jsSortInsert lt a acc)).trans ?_
    refine (List.Perm.append_right l ((jsSortInsert_perm lt a acc))).trans ?_
    simpa using (@List.perm_middle _ a acc l).symm

/-- Sorting with `jsSort` permutes the input. -/
theorem jsSort_perm {α : Type _} (lt : α → α → Bool) (l : List α) : List.Perm (jsSort lt l) l := by
  simpa using jsSort_perm_aux lt l []

theorem mem_jsSortInsert {α : Type _} {lt : α → α → Bool} {a c : α} {l : List α} :
    c ∈ jsSortInsert lt a l ↔ c = a ∨ c ∈ l := by
  have := (jsSortInsert_perm lt a l).mem_iff (a := c)
  simpa using this

theorem mem_jsSort {α : Type _} {lt : α → α → Bool} {c : α} {l : List α} :
    c ∈ jsSort lt l ↔ c ∈ l :=
  (jsSort_perm lt l).mem_iff

/-- Inserting into a list pairwise-ordered by `R` preserves the order,
provided the comparator is sound for `R` on elements satisfying `P`:
a strict comparison yields `R`, a failed one yields `R` the other way,
and `R` is transitive. -/
theorem jsSortInsert_pairwise {α : Type _} {lt : α → α → Bool} {R : α → α → Prop} {P : α → Prop}
    (h1 : ∀ a b, P a → P b → lt a b = true → R a b)
    (h2 : ∀ a b, P a → P b → lt a b = false → R b a)
    (htrans : ∀ a b c, P a → P b → P c → R a b → R b c → R a c)
    {a : α} (ha : P a) {l : List α} (hl : ∀ x ∈ l, P x)
    (hp : l.Pairwise R) : (jsSortInsert lt a l).Pairwise R := by
  induction l with
  | nil => simp [jsSortInsert]
  | cons b l ih =>
    have hb : P b := hl b (by simp)
    have hl' : ∀ x ∈ l, P x := fun x hx => hl x (by simp [hx])
    rw [List.pairwise_cons] at hp
    simp only [jsSortInsert]
    by_cases h : lt a b
    · simp only [h, if_true]
      refine List.Pairwise.cons ?_ (List.Pairwise.cons hp.1 hp.2)
      intro x hx
      rcases List.mem_cons.mp hx with rfl | hx
      · exact h1 a x ha hb h
      · exact htrans a b x ha hb (hl' x hx) (h1 a b ha hb h) (hp.1 x hx)
    · simp only [h]
      simp only [Bool.false_eq_true, if_false]
      refine List.Pairwise.cons ?_ (ih hl' hp.2)
      intro x hx
      rcases mem_jsSortInsert.mp hx with rfl | hx
      · exact h2 x b ha hb (by simpa using h)
      · exact hp.1 x hx
theorem jsSort_pairwise {α : Type _} {lt : α → α → Bool} {R : α → α → Prop} {P : α → Prop}
    (h1 : ∀ a b, P a → P b → lt a b = true → R a b)
    (h2 : ∀ a b, P a → P b → lt a b = false → R b a)
    (htrans : ∀ a b c, P a → P b → P c → R a b → R b c → R a c)
    {l : List α} (hl : ∀ x ∈ l, P x) : (jsSort lt l).Pairwise R := by
  suffices h : ∀ acc : List α, (∀ x ∈ acc, P x) → acc.Pairwise R →
      (l.foldl (fun acc a => jsSortInsert lt a acc) acc).Pairwise R by
    exact h [] (by simp) (by simp)
  induction l with
  | nil => intro acc _ hp; simpa using hp
  | cons a l ih =>
    intro acc hacc hp
    have ha : P a := hl a (by simp)
    have hl' : ∀ x ∈ l, P x := fun x hx => hl x (by simp [hx])
    simp only [List.foldl_cons]
    refine ih hl' (jsSortInsert lt a acc) ?_ ?_
    · intro x hx
      rcases mem_jsSortInsert.mp hx with rfl | hx
      · exact ha
      · exact hacc x hx
    · exact jsSortInsert_pairwise h1 h2 htrans ha hacc hp

example : daysFromCivil 1970 1 1 = 0 := by decide
example : daysFromCivil 2024 1 1 = 19723 := by decide
example : civilFromDays 19723 = (2024, 1, 1) := by decide
example : parseIso "2024-01-01T00:00:00" = some (1704067200, none) := by decide
example : parseIso "2024-01-01T00:00:00+10:00" = some (1704067200, some 600) := by decide
example : parseIso "2024-01-01T00:00:00Z" = some (1704067200, some 0) := by decide
example : isoRender 1704067200 = "2024-01-01T00:00:00.000Z" := by decide
example : isoRender 1704031200 = "2023-12-31T14:00:00.000Z" := by decide
example : replaceZoneSuffix "2024-01-01T00:00:00Z" "+10:00" = "2024-01-01T00:00:00+10:00" := by decide
example : replaceZoneSuffix "2024-01-01T00:00:00" "+10:00" = "2024-01-01T00:00:00" := by decide
example : replaceZoneSuffix "2024-01-01T00:00:00.123+05:30" "+10:00" = "2024-01-01T00:00:00+10:00" := by decide
example : createNetworkDate "2024-01-01T00:00:00Z" "+10:00" 0 = some 1704031200 := by decide
example : createNetworkDate "2024-01-01T00:00:00" "+10:00" 0 = some 1704067200 := by decide
example : createNetworkDate "2024-01-01T00:00:00" "+10:00" 600 = some 1704031200 := by decide
example : createNetworkDateSpec "2024-01-01T00:00:00" "+10:00" = some 1704031200 := by decide
example : createNetworkDateSpec "2024-01-01T00:00:00Z" "+10:00" = some 1704031200 := by decide
example : createNetworkDateV1 "2024-01-01T00:00:00Z" "+10:00" 0 = some 1704103200 := by decide
example : jsSort (fun a b => decide (a < b)) [3, 1, 2, 1] = [1, 1, 2, 3] := by decide
example : (filterProbeTable.filter filterProbePred).rows = [rowA, rowB] := by decide
example : filterProbeTable.rows.filter filterProbePred = [rowA] := by decide
example : (cacheProbeTable.groupBy ["g"] Aggregation.sum).1.rows =
    [[("interval", Value.date 0), ("g", Value.str "A"), ("m", Value.num 3)]] := by decide
example : (((cacheProbeTable.groupBy ["g"] Aggregation.sum).2).groupBy ["g"] Aggregation.sum).1.rows =
    [dupRow1, dupRow2] := by decide
example : (keyCollisionTable.groupBy ["x"] Aggregation.sum).1.rows.length = 1 := by decide
example : disjointKeysTable.rows.length = 2 := by decide
example : (disjointKeysTable.rows.headD []).map (fun p => p.1) = ["interval", "g", "m1"] := by decide
example : disjointKeysTable.metrics = [("m1", "u1"), ("m2", "u2")] := by decide
example : DataTable.fromNetworkTimeSeries [] = Except.error MatErr.emptyInput := rfl
example : describeProbeTable.describe =
    [("v", { count := 3, mean := 2, variance := 2/3, min := 1,
             q25 := 1, median := 2, q75 := 3, max := 3 })] := by decide
example : (sortProbeTable.sortBy ["v"] true).1.rows.map (fun r => valueAt r "v") =
    [Value.null, Value.num 1, Value.num 2] := by decide
example : (sortProbeTable.sortBy ["v"] false).1.rows.map (fun r => valueAt r "v") =
    [Value.num 2, Value.num 1, Value.null] := by decide

theorem foldlM_except_ne_error {σ β : Type _} (f : σ → β → Except MatErr σ) (e : MatErr)
    (h : ∀ s b, f s b ≠ Except.error e) :
    ∀ (l : List β) (s : σ), l.foldlM f s ≠ Except.error e := by
  intro l
  induction l with
  | nil =>
    intro s hcontra
    rw [List.foldlM_nil] at hcontra
    exact Except.noConfusion hcontra
  | cons b l ih =>
    intro s hcontra
    rw [List.foldlM_cons] at hcontra
    cases hfb : f s b with
    | error e2 =>
      rw [hfb] at hcontra
      have herr : (Except.error e2 : Except MatErr σ) = Except.error e := hcontra
      have he : e2 = e := by injection herr
      exact h s b (by rw [hfb, he])
    | ok s2 =>
      rw [hfb] at hcontra
      exact ih s2 hcontra

theorem processDatum_ne_emptyInput (metric offset : String) (columns : List (String × Value))
    (st : List (String × Row)) (datum : String × Value) :
    processDatum metric offset columns st datum ≠ Except.error MatErr.emptyInput := by
  unfold processDatum
  cases createNetworkDateSpec datum.1 offset with
  | none => simp
  | some date =>
    cases hfind : assocFind? st (rowKeyFor (isoRender date) columns) with
    | none => simp [hfind]
    | some row => simp [hfind]

theorem processResult_ne_emptyInput (metric offset : String) (st : List (String × Row))
    (result : ITimeSeriesResult) :
    processResult metric offset st result ≠ Except.error MatErr.emptyInput := by
  unfold processResult
  exact foldlM_except_ne_error _ _ (fun s b => processDatum_ne_emptyInput metric offset result.columns s b) _ st

theorem processSeries_ne_emptyInput (st : List (String × Row)) (series : INetworkTimeSeries) :
    processSeries st series ≠ Except.error MatErr.emptyInput := by
  unfold processSeries
  exact foldlM_except_ne_error _ _ (fun s b => processResult_ne_emptyInput _ _ s b) _ st

/-- C10: `createDataTable` / `fromNetworkTimeSeries` requires a
non-empty series array: with an empty array it fails — it reads the
groupings of the first series unconditionally — instead of returning an
empty table, and for every non-empty input that failure is
unreachable. -/
theorem C10_materialize_requires_nonempty_input :
    DataTable.fromNetworkTimeSeries [] = Except.error MatErr.emptyInput ∧
    createDataTable [] = Except.error MatErr.emptyInput ∧
    (∀ (d : INetworkTimeSeries) (ds : List INetworkTimeSeries),
      DataTable.fromNetworkTimeSeries (d :: ds) ≠ Except.error MatErr.emptyInput) := by
  refine ⟨rfl, rfl, ?_⟩
  intro d ds hcontra
  unfold DataTable.fromNetworkTimeSeries at hcontra
  cases hst : (d :: ds).foldlM processSeries ([] : List (String × Row)) with
  | error e =>
    rw [hst] at hcontra
    have herr : (Except.error e : Except MatErr DataTable) = Except.error MatErr.emptyInput := hcontra
    have he : e = MatErr.emptyInput := by injection herr
    exact foldlM_except_ne_error processSeries MatErr.emptyInput
      (fun s b => processSeries_ne_emptyInput s b) (d :: ds) [] (by rw [hst, he])
  | ok st =>
    rw [hst] at hcontra
    exact Except.noConfusion hcontra

/-- C1: the claim asserts that reconstructing both the zone-naive
timestamp "2024-01-01T00:00:00" and the zone-qualified
"2024-01-01T00:00:00Z" with offset "+10:00" yields the instant
2023-12-31T14:00:00Z (epoch second 1704031200) independent of the
process's local zone.  For the zone-qualified input this holds in every
local zone; for the zone-naive input the zone-suffix regex matches
nothing, the string is parsed in the process's local zone, and the
claimed instant is produced only when that zone is +10:00 — a UTC
process yields 2024-01-01T00:00:00Z (epoch second 1704067200) instead.
The superseded variant at src/datatable.ts:268 is also local-zone
dependent and maps even the zone-qualified input of a UTC process to
2024-01-01T10:00:00Z (epoch second 1704103200). -/
theorem C1_createNetworkDate_local_zone_dependence :
    (∀ localOffMin : ℤ,
      createNetworkDate "2024-01-01T00:00:00Z" "+10:00" localOffMin = some 1704031200) ∧
    createNetworkDate "2024-01-01T00:00:00" "+10:00" 600 = some 1704031200 ∧
    createNetworkDate "2024-01-01T00:00:00" "+10:00" 0 = some 1704067200 ∧
    createNetworkDateV1 "2024-01-01T00:00:00Z" "+10:00" 0 = some 1704103200 ∧
    (1704067200 : ℤ) ≠ 1704031200 := by
  refine ⟨fun localOffMin => rfl, by decide, by decide, by decide, by decide⟩

/-- C2: the claim asserts that `filter(predicate)` returns exactly the
rows satisfying the predicate for every predicate, including predicates
depending on more than one column.  On the two-row table whose rows
share the indexed value a = 1 and differ at b, the two-column predicate
"a = 1 and b = 2" is misclassified by `tryIndexFilter` as an equality
probe on column a, and `filter` returns both rows although only the
first satisfies the predicate. -/
theorem C2_filter_index_probe_returns_nonmatching_row :
    (filterProbeTable.filter filterProbePred).rows = [rowA, rowB] ∧
    filterProbeTable.rows.filter filterProbePred = [rowA] ∧
    filterProbePred rowB = false := by
  refine ⟨by decide, by decide, by decide⟩

/-- C4: the claim asserts that calling `groupBy` twice with the same
arguments returns tables with equal rows.  On a two-row one-group table
the first call returns the single aggregated row, but — because the
cache stores the raw groups and a cache hit returns them flattened and
un-aggregated — the second call returns the two original rows. -/
theorem C4_groupBy_second_call_serves_unaggregated_cache :
    (cacheProbeTable.groupBy ["g"] Aggregation.sum).1.rows =
      [[("interval", Value.date 0), ("g", Value.str "A"), ("m", Value.num 3)]] ∧
    ((cacheProbeTable.groupBy ["g"] Aggregation.sum).2.groupBy ["g"] Aggregation.sum).1.rows =
      [dupRow1, dupRow2] ∧
    ((cacheProbeTable.groupBy ["g"] Aggregation.sum).2.groupBy ["g"] Aggregation.sum).1.rows ≠
      (cacheProbeTable.groupBy ["g"] Aggregation.sum).1.rows := by
  refine ⟨by decide, by decide, by decide⟩

/-- C5: the claim asserts that the composite group key keeps distinct
grouping-value tuples distinct, in particular that `null` never collides
with a string whose text coincides with it.  The key is the naive
stringified join, so the rows with x = `null` and x = "null" (distinct
values) both get the key "x:null" and `groupBy` merges them into a
single partition. -/
theorem C5_group_key_conflates_null_and_null_string :
    valueAt nullKeyRow1 "x" ≠ valueAt nullKeyRow2 "x" ∧
    groupKeyOf ["x"] nullKeyRow1 = "x:null" ∧
    groupKeyOf ["x"] nullKeyRow2 = "x:null" ∧
    (keyCollisionTable.groupBy ["x"] Aggregation.sum).1.rows.length = 1 := by
  refine ⟨by decide, by decide, by decide, by decide⟩

theorem hasKey_iff_mem_keys (r : Row) (k : String) :
    hasKey r k = true ↔ k ∈ r.map (fun p => p.1) := by
  unfold hasKey
  rw [List.any_eq_true]
  constructor
  · rintro ⟨p, hp, hpk⟩
    have hp1 : p.1 = k := by simpa using hpk
    exact List.mem_map.mpr ⟨p, hp, hp1⟩
  · intro hk
    obtain ⟨p, hp, hpk⟩ := List.mem_map.mp hk
    exact ⟨p, hp, by simpa using hpk⟩

theorem hasKey_jsSet_elim {r : Row} {k : String} {v : Value} {k' : String}
    (h : hasKey (jsSet r k v) k' = true) : hasKey r k' = true ∨ k' = k := by
  induction r with
  | nil =>
    simp only [jsSet, hasKey, List.any_cons, List.any_nil, Bool.or_false] at h
    have h2 : k = k' := by simpa using h
    exact Or.inr h2.symm
  | cons p r ih =>
    unfold jsSet at h
    by_cases hp : (p.1 == k)
    · rw [if_pos hp] at h
      rw [hasKey, List.any_cons] at h
      rcases Bool.or_eq_true_iff.mp h with h2 | h2
      · have h3 : k = k' := by simpa using h2
        exact Or.inr h3.symm
      · refine Or.inl ?_
        rw [hasKey, List.any_cons, h2, Bool.or_true]
    · rw [if_neg hp] at h
      rw [hasKey, List.any_cons] at h
      rcases Bool.or_eq_true_iff.mp h with h2 | h2
      · refine Or.inl ?_
        rw [hasKey, List.any_cons, h2, Bool.true_or]
      · rcases ih h2 with h3 | h3
        · refine Or.inl ?_
          rw [hasKey] at h3
          rw [hasKey, List.any_cons, h3, Bool.or_true]
        · exact Or.inr h3

theorem hasKey_foldl_jsSet_elim (cols : List (String × Value)) (r : Row) (k' : String)
    (h : hasKey (cols.foldl (fun acc p => jsSet acc p.1 p.2) r) k' = true) :
    hasKey r k' = true ∨ k' ∈ cols.map (fun p => p.1) := by
  induction cols generalizing r with
  | nil => exact Or.inl h
  | cons p cols ih =>
    rw [List.foldl_cons] at h
    rcases ih (jsSet r p.1 p.2) h with h2 | h2
    · rcases hasKey_jsSet_elim h2 with h3 | h3
      · exact Or.inl h3
      · exact Or.inr (by simp [h3])
    · exact Or.inr (by simp [h2])

theorem mem_assocSet {β : Type _} {m : List (String × β)} {k : String} {v : β} {p : String × β}
    (hp : p ∈ assocSet m k v) : p ∈ m ∨ p.2 = v := by
  induction m with
  | nil =>
    simp only [assocSet, List.mem_singleton] at hp
    subst hp
    exact Or.inr rfl
  | cons q m ih =>
    unfold assocSet at hp
    by_cases hq : (q.1 == k)
    · rw [if_pos hq] at hp
      rcases List.mem_cons.mp hp with rfl | hp2
      · exact Or.inr rfl
      · exact Or.inl (List.mem_cons_of_mem q hp2)
    · rw [if_neg hq] at hp
      rcases List.mem_cons.mp hp with rfl | hp2
      · exact Or.inl (List.mem_cons_self p m)
      · rcases ih hp2 with h2 | h2
        · exact Or.inl (List.mem_cons_of_mem q h2)
        · exact Or.inr h2

theorem assocFind?_mem {β : Type _} {m : List (String × β)} {k : String} {b : β}
    (h : assocFind? m k = some b) : ∃ a, (a, b) ∈ m := by
  unfold assocFind? at h
  cases hfind : m.find? (fun p => p.1 == k) with
  | none => rw [hfind] at h; exact Option.noConfusion h
  | some p =>
    rw [hfind] at h
    have hp := List.find?_some hfind
    have hmem := List.mem_of_find?_eq_some hfind
    have hb : p.2 = b := by injection h
    exact ⟨p.1, by rw [← hb]; exact hmem⟩

theorem foldlM_except_invariant {σ β : Type _} {P : σ → Prop} (f : σ → β → Except MatErr σ)
    (l : List β) (hstep : ∀ s b, b ∈ l → P s → ∀ s2, f s b = Except.ok s2 → P s2) :
    ∀ s s2, P s → l.foldlM f s = Except.ok s2 → P s2 := by
  induction l with
  | nil =>
    intro s s2 hP h
    rw [List.foldlM_nil] at h
    have h2 : s = s2 := by injection h
    exact h2 ▸ hP
  | cons b l ih =>
    intro s s2 hP h
    rw [List.foldlM_cons] at h
    cases hfb : f s b with
    | error e => rw [hfb] at h; exact Except.noConfusion h
    | ok s1 =>
      rw [hfb] at h
      have hP1 : P s1 := hstep s b (by simp) hP s1 hfb
      exact ih (fun s b hb => hstep s b (by simp [hb])) s1 s2 hP1 h

theorem processDatum_preserves_InvC3 (data : List INetworkTimeSeries)
    (s : INetworkTimeSeries) (hs : s ∈ data) (res : ITimeSeriesResult) (hres : res ∈ s.results)
    (st : List (String × Row)) (datum : String × Value) (hinv : InvC3 data st)
    (st2 : List (String × Row))
    (h : processDatum s.metric s.network_timezone_offset res.columns st datum = Except.ok st2) :
    InvC3 data st2 := by
  unfold processDatum at h
  cases hdate : createNetworkDateSpec datum.1 s.network_timezone_offset with
  | none =>
    simp only [hdate] at h
    exact Except.noConfusion h
  | some date =>
    simp only [hdate] at h
    cases hfind : assocFind? st (rowKeyFor (isoRender date) res.columns) with
    | some row =>
      simp only [hfind] at h
      have hst2 : st2 = assocSet st (rowKeyFor (isoRender date) res.columns)
          (jsSet row s.metric datum.2) := by
        injection h with h2
        exact h2.symm
      intro p hp k hk
      rw [hst2] at hp
      rcases mem_assocSet hp with hp2 | hp2
      · exact hinv p hp2 k hk
      · rw [hp2] at hk
        rcases hasKey_jsSet_elim hk with h3 | h3
        · obtain ⟨a, ha⟩ := assocFind?_mem hfind
          exact hinv (a, row) ha k h3
        · exact Or.inr (Or.inr ⟨s, hs, h3.symm⟩)
    | none =>
      simp only [hfind] at h
      have hst2 : st2 = st ++ [(rowKeyFor (isoRender date) res.columns,
          jsSet (res.columns.foldl (fun acc p => jsSet acc p.1 p.2)
            [("interval", Value.date date)]) s.metric datum.2)] := by
        injection h with h2
        exact h2.symm
      intro p hp k hk
      rw [hst2] at hp
      rcases List.mem_append.mp hp with hp2 | hp2
      · exact hinv p hp2 k hk
      · simp only [List.mem_singleton] at hp2
        subst hp2
        simp only at hk
        rcases hasKey_jsSet_elim hk with h3 | h3
        · rcases hasKey_foldl_jsSet_elim _ _ _ h3 with h4 | h4
          · left
            rw [hasKey_iff_mem_keys] at h4
            simpa using h4
          · exact Or.inr (Or.inl ⟨s, hs, res, hres, h4⟩)
        · exact Or.inr (Or.inr ⟨s, hs, h3.symm⟩)

theorem processSeries_preserves_InvC3 (data : List INetworkTimeSeries)
    (s : INetworkTimeSeries) (hs : s ∈ data)
    (st : List (String × Row)) (hinv : InvC3 data st) (st2 : List (String × Row))
    (h : processSeries st s = Except.ok st2) : InvC3 data st2 := by
  unfold processSeries at h
  refine foldlM_except_invariant _ s.results ?_ st st2 hinv h
  intro st' res hres hinv' st2' h'
  unfold processResult at h'
  refine foldlM_except_invariant _ res.data ?_ st' st2' hinv' h'
  intro st3 datum _ hinv3 st4 h3
  exact processDatum_preserves_InvC3 data s hs res hres st3 datum hinv3 st4 h3

theorem fromNetworkTimeSeries_keys_originate (data : List INetworkTimeSeries) (t : DataTable)
    (hok : DataTable.fromNetworkTimeSeries data = Except.ok t) :
    ∀ r ∈ t.rows, ∀ k, hasKey r k = true → KeyOK data k := by
  cases data with
  | nil => exact Except.noConfusion hok
  | cons d ds =>
    unfold DataTable.fromNetworkTimeSeries at hok
    cases hst : (d :: ds).foldlM processSeries ([] : List (String × Row)) with
    | error e =>
      rw [hst] at hok
      exact Except.noConfusion hok
    | ok st =>
      rw [hst] at hok
      have hinv : InvC3 (d :: ds) st := by
        refine foldlM_except_invariant processSeries (d :: ds) ?_ [] st ?_ hst
        · intro st' s hs hinv' st2' h'
          exact processSeries_preserves_InvC3 (d :: ds) s hs st' hinv' st2' h'
        · intro p hp; exact absurd hp (List.not_mem_nil p)
      have ht : t.rows = jsSort (fun a b => decide (intervalTime a < intervalTime b))
          (st.map (fun p => p.2)) := by
        have h2 := hok
        injection h2 with h3
        rw [← h3]
      intro r hr k hk
      rw [ht] at hr
      obtain ⟨p, hp, hpr⟩ := List.mem_map.mp (mem_jsSort.mp hr)
      exact hinv p hp k (hpr ▸ hk)

/-- C3 counterexample: on the two-series input whose series visit
disjoint row keys, the materialized table's metric map contains m2, yet
the row created while processing the m1 series has no m2 field at all —
its keys are exactly interval, g and m1, and reading m2 gives
`undefined`, not `null`.  This refutes the claim that a metric key is
never absent from a row. -/
theorem C3_counterexample_metric_key_absent :
    disjointKeysTable.metrics = [("m1", "u1"), ("m2", "u2")] ∧
    disjointKeysTable.rows.length = 2 ∧
    (disjointKeysTable.rows.headD []).map (fun p => p.1) = ["interval", "g", "m1"] ∧
    hasKey (disjointKeysTable.rows.headD []) "m2" = false ∧
    valueAt (disjointKeysTable.rows.headD []) "m2" = Value.undef := by
  refine ⟨by decide, by decide, by decide, by decide, by decide⟩

/-- C3 as amended: after materialization a row need not have a field for
every metric in the metrics map.  Every key of every row originates from
the processing — it is `interval`, a grouping column of some result
block, or the metric of some input series — and a row created while
processing one series and never visited by another series' data simply
lacks the other metric's key (absent `undefined`, not `null`), as on the
two-series disjoint-key input, where the m1 row carries m1 = 1 but no m2
field and the m2 row carries m2 = 2 but no m1 field. -/
theorem C3_amended_metric_fields_only_where_written :
    (∀ (data : List INetworkTimeSeries) (t : DataTable),
      DataTable.fromNetworkTimeSeries data = Except.ok t →
      ∀ r ∈ t.rows, ∀ k, hasKey r k = true → KeyOK data k) ∧
    (valueAt (disjointKeysTable.rows.headD []) "m1" = Value.num 1 ∧
     hasKey (disjointKeysTable.rows.headD []) "m2" = false ∧
     valueAt (disjointKeysTable.rows.getD 1 []) "m2" = Value.num 2 ∧
     hasKey (disjointKeysTable.rows.getD 1 []) "m1" = false) := by
  refine ⟨fromNetworkTimeSeries_keys_originate, by decide, by decide, by decide, by decide⟩

theorem valueAt_jsSet_self (r : Row) (k : String) (v : Value) :
    valueAt (jsSet r k v) k = v := by
  induction r with
  | nil => simp [jsSet, valueAt, List.find?]
  | cons p r ih =>
    unfold jsSet
    by_cases hp : (p.1 == k)
    · rw [if_pos hp]
      simp [valueAt, List.find?]
    · rw [if_neg hp]
      have hp2 : (p.1 == k) = false := by simpa using hp
      unfold valueAt at ih ⊢
      simp only [List.find?, hp2]
      exact ih

theorem valueAt_jsSet_ne (r : Row) (k k' : String) (v : Value) (h : k' ≠ k) :
    valueAt (jsSet r k v) k' = valueAt r k' := by
  have hkk : (k == k') = false := by simpa using fun he => h he.symm
  induction r with
  | nil => simp [jsSet, valueAt, List.find?, hkk]
  | cons p r ih =>
    unfold jsSet
    by_cases hp : (p.1 == k)
    · rw [if_pos hp]
      have hp1 : p.1 = k := by simpa using hp
      have hp' : (p.1 == k') = false := by rw [hp1]; exact hkk
      simp only [valueAt, List.find?, hkk, hp']
    · rw [if_neg hp]
      by_cases hq : (p.1 == k')
      · simp only [valueAt, List.find?, hq]
      · have hq' : (p.1 == k') = false := by simpa using hq
        simp only [valueAt, List.find?, hq']
        exact ih

theorem valueAt_foldl_jsSet (keys : List String) (f : String → Value) (r : Row) (m : String) :
    valueAt (keys.foldl (fun acc k => jsSet acc k (f k)) r) m =
      if m ∈ keys then f m else valueAt r m := by
  induction keys generalizing r with
  | nil => simp
  | cons k keys ih =>
    rw [List.foldl_cons, ih (jsSet r k (f k))]
    by_cases hm : m ∈ keys
    · rw [if_pos hm, if_pos (by simp [hm])]
    · rw [if_neg hm]
      by_cases hmk : m = k
      · subst hmk
        rw [if_pos (by simp), valueAt_jsSet_self]
      · rw [if_neg (by simp [hmk, hm]), valueAt_jsSet_ne r k m (f k) hmk]

theorem valueAt_aggRowOf (names cols : List String) (agg : Aggregation) (g : List Row)
    (m : String) (hm : m ∈ names) :
    valueAt (aggRowOf names cols agg g) m = aggValueOf agg (collectValid g m) := by
  unfold aggRowOf
  rw [valueAt_foldl_jsSet names (fun metric => aggValueOf agg (collectValid g metric)) _ m]
  rw [if_pos hm]

theorem collectValid_eq_map (g : List Row) (m : String)
    (h : ∀ r ∈ g, isMetricValueOk (valueAt r m) = true) :
    collectValid g m = (validNumsOf g m).map Value.num := by
  induction g with
  | nil => rfl
  | cons r g ih =>
    have hr := h r (by simp)
    have hg : ∀ x ∈ g, isMetricValueOk (valueAt x m) = true := fun x hx => h x (by simp [hx])
    have ih2 := ih hg
    cases hv : valueAt r m with
    | null => simp [collectValid, validNumsOf, List.filterMap_cons, hv] at ih2 ⊢; exact ih2
    | nan => simp [collectValid, validNumsOf, List.filterMap_cons, hv] at ih2 ⊢; exact ih2
    | undef => simp [collectValid, validNumsOf, List.filterMap_cons, hv] at ih2 ⊢; exact ih2
    | num q => simp [collectValid, validNumsOf, List.filterMap_cons, hv] at ih2 ⊢; exact ih2
    | str s => rw [hv] at hr; exact absurd hr (by simp [isMetricValueOk])
    | bool b => rw [hv] at hr; exact absurd hr (by simp [isMetricValueOk])
    | date t => rw [hv] at hr; exact absurd hr (by simp [isMetricValueOk])

theorem jsReduceAdd_map (qs : List ℚ) : jsReduceAdd (qs.map Value.num) = Value.num qs.sum := by
  have haux : ∀ (qs : List ℚ) (a : ℚ),
      (qs.map Value.num).foldl jsAdd (Value.num a) = Value.num (a + qs.sum) := by
    intro qs
    induction qs with
    | nil => intro a; simp
    | cons q qs ih =>
      intro a
      rw [List.map_cons, List.foldl_cons]
      have hone : jsAdd (Value.num a) (Value.num q) = Value.num (a + q) := rfl
      rw [hone, ih (a + q), List.sum_cons]
      congr 1
      ring
  unfold jsReduceAdd
  rw [haux qs 0, zero_add]

theorem aggValueOf_eq_specAgg (agg : Aggregation) (g : List Row) (m : String)
    (h : ∀ r ∈ g, isMetricValueOk (valueAt r m) = true) :
    aggValueOf agg (collectValid g m) = specAgg agg (validNumsOf g m) := by
  rw [collectValid_eq_map g m h]
  unfold aggValueOf specAgg
  by_cases he : validNumsOf g m = []
  · rw [he]
    simp
  · have he2 : (validNumsOf g m).map Value.num ≠ [] := by simpa using he
    rw [if_neg he2, if_neg he, jsReduceAdd_map]
    cases agg with
    | sum => rfl
    | mean => simp [jsDivLen, toNumberV, List.length_map]

theorem groupTotal_insertGroup (f : Row → ℚ) (acc : List (String × List Row)) (k : String)
    (r : Row) : groupTotal f (insertGroup acc k r) = groupTotal f acc + f r := by
  induction acc with
  | nil => simp [insertGroup, groupTotal]
  | cons p acc ih =>
    unfold insertGroup
    by_cases hp : p.1 = k
    · rw [if_pos hp]
      unfold groupTotal
      simp only [List.map_cons, List.sum_cons, List.map_append, List.sum_append]
      simp
      ring
    · rw [if_neg hp]
      unfold groupTotal at ih ⊢
      simp only [List.map_cons, List.sum_cons]
      rw [ih]
      ring

theorem groupTotal_partitionRows (f : Row → ℚ) (cols : List String) (rows : List Row) :
    groupTotal f (partitionRows cols rows) = (rows.map f).sum := by
  have haux : ∀ (rows : List Row) (acc : List (String × List Row)),
      groupTotal f (rows.foldl (fun groups row => insertGroup groups (groupKeyOf cols row) row) acc) =
        groupTotal f acc + (rows.map f).sum := by
    intro rows
    induction rows with
    | nil => intro acc; simp
    | cons r rows ih =>
      intro acc
      rw [List.foldl_cons, ih, groupTotal_insertGroup, List.map_cons, List.sum_cons]
      ring
  unfold partitionRows
  rw [haux rows []]
  simp [groupTotal]

theorem insertGroup_forall {P : Row → Prop} {k : String} {r : Row} (hr : P r) :
    ∀ (acc : List (String × List Row)), (∀ p ∈ acc, ∀ x ∈ p.2, P x) →
      ∀ p ∈ insertGroup acc k r, ∀ x ∈ p.2, P x := by
  intro acc
  induction acc with
  | nil =>
    intro _ p hp x hx
    simp only [insertGroup, List.mem_singleton] at hp
    subst hp
    simp only [List.mem_singleton] at hx
    exact hx ▸ hr
  | cons q acc ih =>
    intro hacc p hp x hx
    unfold insertGroup at hp
    by_cases hq : q.1 = k
    · rw [if_pos hq] at hp
      rcases List.mem_cons.mp hp with rfl | hp2
      · rcases List.mem_append.mp hx with hx2 | hx2
        · exact hacc q (by simp) x hx2
        · simp only [List.mem_singleton] at hx2
          exact hx2 ▸ hr
      · exact hacc p (by simp [hp2]) x hx
    · rw [if_neg hq] at hp
      rcases List.mem_cons.mp hp with heq | hp2
      · refine hacc q (List.mem_cons_self q acc) x ?_
        rw [heq] at hx
        exact hx
      · exact ih (fun p2 hp2' x2 hx2 => hacc p2 (List.mem_cons_of_mem q hp2') x2 hx2) p hp2 x hx

theorem partitionRows_forall {P : Row → Prop} (cols : List String) (rows : List Row)
    (h : ∀ r ∈ rows, P r) :
    ∀ p ∈ partitionRows cols rows, ∀ x ∈ p.2, P x := by
  have haux : ∀ (rows : List Row), (∀ r ∈ rows, P r) →
      ∀ (acc : List (String × List Row)), (∀ p ∈ acc, ∀ x ∈ p.2, P x) →
      ∀ p ∈ rows.foldl (fun groups row => insertGroup groups (groupKeyOf cols row) row) acc,
        ∀ x ∈ p.2, P x := by
    intro rows
    induction rows with
    | nil =>
      intro _ acc hacc
      simpa using hacc
    | cons r rows ih =>
      intro hall acc hacc
      rw [List.foldl_cons]
      exact ih (fun x hx => hall x (by simp [hx])) _
        (insertGroup_forall (hall r (by simp)) acc hacc)
  exact haux rows h [] (by simp)

theorem validNumsOf_sum (g : List Row) (m : String)
    (h : ∀ r ∈ g, isNumOrNull (valueAt r m) = true) :
    (validNumsOf g m).sum = (g.map (fun r => numOr0 (valueAt r m))).sum := by
  induction g with
  | nil => rfl
  | cons r g ih =>
    have hr := h r (by simp)
    have hg : ∀ x ∈ g, isNumOrNull (valueAt x m) = true := fun x hx => h x (by simp [hx])
    have ih2 := ih hg
    cases hv : valueAt r m with
    | null =>
      simp only [validNumsOf, List.filterMap_cons, hv, List.map_cons, List.sum_cons, numOr0] at ih2 ⊢
      rw [zero_add]
      exact ih2
    | num q =>
      simp only [validNumsOf, List.filterMap_cons, hv, List.map_cons, List.sum_cons, numOr0] at ih2 ⊢
      rw [ih2]
    | str s => rw [hv] at hr; exact absurd hr (by simp [isNumOrNull])
    | bool b => rw [hv] at hr; exact absurd hr (by simp [isNumOrNull])
    | date t => rw [hv] at hr; exact absurd hr (by simp [isNumOrNull])
    | nan => rw [hv] at hr; exact absurd hr (by simp [isNumOrNull])
    | undef => rw [hv] at hr; exact absurd hr (by simp [isNumOrNull])

theorem groupBy_rows_of_cacheMiss (t : DataTable) (cols : List String) (agg : Aggregation)
    (h : assocFind? t.cache.groupedRows (cacheKeyOf cols (aggName agg)) = none) :
    (t.groupBy cols agg).1.rows =
      (partitionRows cols t.rows).map (fun p => aggRowOf (metricNamesOf t) cols agg p.2) := by
  unfold DataTable.groupBy
  simp only [h]
  rfl

theorem isMetricValueOk_of_isNumOrNull {v : Value} (h : isNumOrNull v = true) :
    isMetricValueOk v = true := by
  cases v <;> simp_all [isNumOrNull, isMetricValueOk]

theorem forall2_map_self {α β : Type _} {R : α → β → Prop} {l : List α} {f : α → β}
    (h : ∀ x ∈ l, R x (f x)) : List.Forall₂ R l (l.map f) := by
  induction l with
  | nil => exact List.Forall₂.nil
  | cons a l ih =>
    rw [List.map_cons]
    exact List.Forall₂.cons (h a (by simp)) (ih (fun x hx => h x (by simp [hx])))

/-- C7: group-by total conservation — for a metric m of the table, any
grouping columns contained in the table's grouping columns, a strictly
numeric (number-or-null) metric column, and a fresh group cache, the sum
of m over the rows of `groupBy(C, "sum")`, ignoring nulls, equals the
sum of m over the original rows, ignoring nulls. -/
theorem C7_groupBy_sum_total_conservation (t : DataTable) (cols : List String) (m : String)
    (hm : m ∈ metricNamesOf t)
    (hsub : ∀ c ∈ cols, c ∈ t.groupings)
    (hWT : ∀ r ∈ t.rows, isNumOrNull (valueAt r m) = true)
    (hmiss : assocFind? t.cache.groupedRows (cacheKeyOf cols (aggName Aggregation.sum)) = none) :
    sumIgnoringNulls m ((t.groupBy cols Aggregation.sum).1.rows) = sumIgnoringNulls m t.rows := by
  rw [groupBy_rows_of_cacheMiss t cols Aggregation.sum hmiss]
  unfold sumIgnoringNulls
  rw [List.map_map]
  have hstep : ∀ p ∈ partitionRows cols t.rows,
      ((fun r => numOr0 (valueAt r m)) ∘
        (fun p : String × List Row => aggRowOf (metricNamesOf t) cols Aggregation.sum p.2)) p =
        (p.2.map (fun r => numOr0 (valueAt r m))).sum := by
    intro p hp
    have hin : ∀ x ∈ p.2, x ∈ t.rows :=
      partitionRows_forall cols t.rows (fun r hr => hr) p hp
    have hWTp : ∀ x ∈ p.2, isNumOrNull (valueAt x m) = true := fun x hx => hWT x (hin x hx)
    have hWTp2 : ∀ x ∈ p.2, isMetricValueOk (valueAt x m) = true :=
      fun x hx => isMetricValueOk_of_isNumOrNull (hWTp x hx)
    simp only [Function.comp]
    rw [valueAt_aggRowOf _ _ _ _ _ hm, aggValueOf_eq_specAgg _ _ _ hWTp2]
    unfold specAgg
    by_cases he : validNumsOf p.2 m = []
    · rw [if_pos he]
      have hsum := validNumsOf_sum p.2 m hWTp
      rw [he] at hsum
      simp only [List.sum_nil] at hsum
      simp only [numOr0]
      exact hsum
    · rw [if_neg he]
      simp only [numOr0]
      exact validNumsOf_sum p.2 m hWTp
  rw [List.map_congr_left hstep]
  exact groupTotal_partitionRows (fun r => numOr0 (valueAt r m)) cols t.rows

/-- C7 witness: the conservation theorem applied to the concrete
two-row one-group table. -/
theorem C7_witness_on_concrete_table :
    ("m" ∈ metricNamesOf cacheProbeTable) ∧
    (∀ c ∈ ["g"], c ∈ cacheProbeTable.groupings) ∧
    (∀ r ∈ cacheProbeTable.rows, isNumOrNull (valueAt r "m") = true) ∧
    (assocFind? cacheProbeTable.cache.groupedRows
      (cacheKeyOf ["g"] (aggName Aggregation.sum)) = none) ∧
    sumIgnoringNulls "m" ((cacheProbeTable.groupBy ["g"] Aggregation.sum).1.rows) =
      sumIgnoringNulls "m" cacheProbeTable.rows :=
  ⟨by decide, by decide, by decide, by decide,
    C7_groupBy_sum_total_conservation cacheProbeTable ["g"] "m"
      (by decide) (by decide) (by decide) (by decide)⟩

/-- C6: for every table with a fresh group cache whose metric cells are
numbers, NaN, null or absent, `groupBy` emits, partition by partition
(in partition order), a row whose value for every metric is the exact
sum (or arithmetic mean) of the partition's non-null, non-NaN values of
that metric, and null — never NaN and never 0 — when the partition has
no such valid value. -/
theorem C6_groupBy_aggregates_valid_values (t : DataTable) (cols : List String)
    (agg : Aggregation)
    (hWT : ∀ r ∈ t.rows, ∀ m ∈ metricNamesOf t, isMetricValueOk (valueAt r m) = true)
    (hmiss : assocFind? t.cache.groupedRows (cacheKeyOf cols (aggName agg)) = none) :
    List.Forall₂ (fun (kg : String × List Row) (out : Row) =>
        ∀ m ∈ metricNamesOf t, valueAt out m = specAgg agg (validNumsOf kg.2 m))
      (partitionRows cols t.rows) ((t.groupBy cols agg).1.rows) := by
  rw [groupBy_rows_of_cacheMiss t cols agg hmiss]
  refine forall2_map_self ?_
  intro p hp m hm
  have hin : ∀ x ∈ p.2, x ∈ t.rows :=
    partitionRows_forall cols t.rows (fun r hr => hr) p hp
  rw [valueAt_aggRowOf _ _ _ _ _ hm]
  exact aggValueOf_eq_specAgg agg p.2 m (fun r hr => hWT r (hin r hr) m hm)

/-- C6 witness: the aggregation theorem applied to the concrete
three-row table with a null cell and two partitions, under mean. -/
theorem C6_witness_on_concrete_table :
    (∀ r ∈ sortProbeTable.rows, ∀ m ∈ metricNamesOf sortProbeTable,
      isMetricValueOk (valueAt r m) = true) ∧
    (assocFind? sortProbeTable.cache.groupedRows
      (cacheKeyOf ["v"] (aggName Aggregation.mean)) = none) ∧
    List.Forall₂ (fun (kg : String × List Row) (out : Row) =>
        ∀ m ∈ metricNamesOf sortProbeTable, valueAt out m = specAgg Aggregation.mean (validNumsOf kg.2 m))
      (partitionRows ["v"] sortProbeTable.rows)
      ((sortProbeTable.groupBy ["v"] Aggregation.mean).1.rows) :=
  ⟨by decide, by decide,
    C6_groupBy_aggregates_valid_values sortProbeTable ["v"] Aggregation.mean
      (by decide) (by decide)⟩

theorem numOrNull_cases {v : Value} (h : isNumOrNull v = true) :
    v = Value.null ∨ ∃ q, v = Value.num q := by
  cases v with
  | null => exact Or.inl rfl
  | num q => exact Or.inr ⟨q, rfl⟩
  | str s => exact absurd h (by simp [isNumOrNull])
  | bool b => exact absurd h (by simp [isNumOrNull])
  | date t => exact absurd h (by simp [isNumOrNull])
  | nan => exact absurd h (by simp [isNumOrNull])
  | undef => exact absurd h (by simp [isNumOrNull])

theorem sortBy_rows_of_cacheMiss (t : DataTable) (cols : List String) (ascending : Bool)
    (h : assocFind? t.cache.sortedRows
      (cacheKeyOf cols (if ascending then "true" else "false")) = none) :
    (t.sortBy cols ascending).1.rows =
      jsSort (fun a b => decide (rowCompare cols ascending a b < 0)) t.rows := by
  unfold DataTable.sortBy
  simp only [h]
  rfl

theorem kindIs_ne_null {k : ValueKind} {v : Value} (h : kindIs k v = true) :
    v ≠ Value.null := by
  intro heq
  subst heq
  cases k <;> simp [kindIs] at h

theorem kindIs_num_elim {v : Value} (h : kindIs ValueKind.num v = true) :
    ∃ a, v = Value.num a := by
  cases v with
  | num a => exact ⟨a, rfl⟩
  | str s => exact absurd h (by simp [kindIs])
  | bool b => exact absurd h (by simp [kindIs])
  | date t => exact absurd h (by simp [kindIs])
  | nan => exact absurd h (by simp [kindIs])
  | null => exact absurd h (by simp [kindIs])
  | undef => exact absurd h (by simp [kindIs])

theorem kindIs_str_elim {v : Value} (h : kindIs ValueKind.str v = true) :
    ∃ a, v = Value.str a := by
  cases v with
  | str a => exact ⟨a, rfl⟩
  | num q => exact absurd h (by simp [kindIs])
  | bool b => exact absurd h (by simp [kindIs])
  | date t => exact absurd h (by simp [kindIs])
  | nan => exact absurd h (by simp [kindIs])
  | null => exact absurd h (by simp [kindIs])
  | undef => exact absurd h (by simp [kindIs])

theorem kindIs_bool_elim {v : Value} (h : kindIs ValueKind.bool v = true) :
    ∃ a, v = Value.bool a := by
  cases v with
  | bool a => exact ⟨a, rfl⟩
  | num q => exact absurd h (by simp [kindIs])
  | str s => exact absurd h (by simp [kindIs])
  | date t => exact absurd h (by simp [kindIs])
  | nan => exact absurd h (by simp [kindIs])
  | null => exact absurd h (by simp [kindIs])
  | undef => exact absurd h (by simp [kindIs])

theorem kindIs_date_elim {v : Value} (h : kindIs ValueKind.date v = true) :
    ∃ a, v = Value.date a := by
  cases v with
  | date a => exact ⟨a, rfl⟩
  | num q => exact absurd h (by simp [kindIs])
  | str s => exact absurd h (by simp [kindIs])
  | bool b => exact absurd h (by simp [kindIs])
  | nan => exact absurd h (by simp [kindIs])
  | null => exact absurd h (by simp [kindIs])
  | undef => exact absurd h (by simp [kindIs])

theorem nullOrKind_cases {k : ValueKind} {v : Value} (h : isNullOrKind k v = true) :
    v = Value.null ∨ kindIs k v = true := by
  unfold isNullOrKind at h
  rcases Bool.or_eq_true_iff.mp h with h2 | h2
  · exact Or.inl (by simpa using h2)
  · exact Or.inr h2

theorem valueLe_not_null_left {w : Value} : ¬ valueLe Value.null w := by
  cases w <;> simp [valueLe]

theorem valueLe_not_null_right {v : Value} : ¬ valueLe v Value.null := by
  cases v <;> simp [valueLe]

theorem valueLe_of_jsLt {k : ValueKind} {v w : Value} (hv : kindIs k v = true)
    (hw : kindIs k w = true) (h : jsLt v w = true) : valueLe v w := by
  cases k with
  | num =>
    obtain ⟨a, rfl⟩ := kindIs_num_elim hv
    obtain ⟨b, rfl⟩ := kindIs_num_elim hw
    simp [jsLt, toNumberV] at h
    simpa [valueLe] using h.le
  | str =>
    obtain ⟨a, rfl⟩ := kindIs_str_elim hv
    obtain ⟨b, rfl⟩ := kindIs_str_elim hw
    simp [jsLt] at h
    simpa [valueLe] using le_of_lt h
  | bool =>
    obtain ⟨a, rfl⟩ := kindIs_bool_elim hv
    obtain ⟨b, rfl⟩ := kindIs_bool_elim hw
    cases a <;> cases b <;>
      simp [jsLt, toNumberV, valueLe] at h ⊢ <;>
      norm_num at h
  | date =>
    obtain ⟨a, rfl⟩ := kindIs_date_elim hv
    obtain ⟨b, rfl⟩ := kindIs_date_elim hw
    simp [jsLt, toNumberV] at h
    have hab : a < b := by exact_mod_cast h
    simpa [valueLe] using hab.le

theorem valueLe_of_not_jsLt {k : ValueKind} {v w : Value} (hv : kindIs k v = true)
    (hw : kindIs k w = true) (h : jsLt v w = false) : valueLe w v := by
  cases k with
  | num =>
    obtain ⟨a, rfl⟩ := kindIs_num_elim hv
    obtain ⟨b, rfl⟩ := kindIs_num_elim hw
    simp [jsLt, toNumberV] at h
    simpa [valueLe] using h
  | str =>
    obtain ⟨a, rfl⟩ := kindIs_str_elim hv
    obtain ⟨b, rfl⟩ := kindIs_str_elim hw
    simp [jsLt] at h
    simpa [valueLe] using h
  | bool =>
    obtain ⟨a, rfl⟩ := kindIs_bool_elim hv
    obtain ⟨b, rfl⟩ := kindIs_bool_elim hw
    cases a <;> cases b <;> simp [jsLt, toNumberV, valueLe] at h ⊢
  | date =>
    obtain ⟨a, rfl⟩ := kindIs_date_elim hv
    obtain ⟨b, rfl⟩ := kindIs_date_elim hw
    simp [jsLt, toNumberV] at h
    simpa [valueLe] using h

theorem valueLe_trans {k : ValueKind} {u v w : Value} (hu : kindIs k u = true)
    (hv : kindIs k v = true) (hw : kindIs k w = true)
    (h1 : valueLe u v) (h2 : valueLe v w) : valueLe u w := by
  cases k with
  | num =>
    obtain ⟨a, rfl⟩ := kindIs_num_elim hu
    obtain ⟨b, rfl⟩ := kindIs_num_elim hv
    obtain ⟨c, rfl⟩ := kindIs_num_elim hw
    simp [valueLe] at h1 h2 ⊢
    exact le_trans h1 h2
  | str =>
    obtain ⟨a, rfl⟩ := kindIs_str_elim hu
    obtain ⟨b, rfl⟩ := kindIs_str_elim hv
    obtain ⟨c, rfl⟩ := kindIs_str_elim hw
    simp [valueLe] at h1 h2 ⊢
    exact le_trans h1 h2
  | bool =>
    obtain ⟨a, rfl⟩ := kindIs_bool_elim hu
    obtain ⟨b, rfl⟩ := kindIs_bool_elim hv
    obtain ⟨c, rfl⟩ := kindIs_bool_elim hw
    cases a <;> cases b <;> cases c <;> simp [valueLe] at h1 h2 ⊢
  | date =>
    obtain ⟨a, rfl⟩ := kindIs_date_elim hu
    obtain ⟨b, rfl⟩ := kindIs_date_elim hv
    obtain ⟨c, rfl⟩ := kindIs_date_elim hw
    simp [valueLe] at h1 h2 ⊢
    exact le_trans h1 h2

/-- C9: sort null-first total ordering.  For EVERY table with a fresh
sort cache and every column: ascending `sortBy([col])` places every
null-valued row before every row with a non-null value at the column,
and descending `sortBy([col])` places every null-valued row after all
non-null rows — with no assumption on the non-null values' types; and
whenever the column is homogeneous of any comparable kind (numbers,
strings, booleans or dates — every value type the materialized tables
carry), the non-null values are additionally non-decreasing after the
nulls in the kind's natural order (numeric, lexicographic, false-before-
true, chronological).  A column mixing kinds or containing NaN or
undefined has an inconsistent JS comparator and no defined order. -/
theorem C9_sortBy_null_first_total_order (t : DataTable) (col : String)
    (hmissA : assocFind? t.cache.sortedRows (cacheKeyOf [col] "true") = none)
    (hmissD : assocFind? t.cache.sortedRows (cacheKeyOf [col] "false") = none) :
    List.Pairwise (fun r1 r2 => valueAt r1 col = Value.null ∨
        (valueAt r1 col ≠ Value.null ∧ valueAt r2 col ≠ Value.null))
      ((t.sortBy [col] true).1.rows) ∧
    List.Pairwise (fun r1 r2 => valueAt r1 col = Value.null → valueAt r2 col = Value.null)
      ((t.sortBy [col] false).1.rows) ∧
    (∀ k : ValueKind, (∀ r ∈ t.rows, isNullOrKind k (valueAt r col) = true) →
      List.Pairwise (fun r1 r2 => valueAt r1 col = Value.null ∨
          valueLe (valueAt r1 col) (valueAt r2 col))
        ((t.sortBy [col] true).1.rows)) := by
  refine ⟨?_, ?_, ?_⟩
  · rw [sortBy_rows_of_cacheMiss t [col] true hmissA]
    refine jsSort_pairwise (P := fun _ => True) ?_ ?_ ?_ (fun x _ => trivial)
    · intro a b _ _ hlt
      by_cases hva : valueAt a col = Value.null
      · exact Or.inl hva
      · by_cases hvb : valueAt b col = Value.null
        · exfalso
          simp [rowCompare, hva, hvb] at hlt
        · exact Or.inr ⟨hva, hvb⟩
    · intro a b _ _ hlt
      by_cases hvb : valueAt b col = Value.null
      · exact Or.inl hvb
      · by_cases hva : valueAt a col = Value.null
        · exfalso
          simp [rowCompare, hva, hvb] at hlt
        · exact Or.inr ⟨hvb, hva⟩
    · intro a b c _ _ _ h1 h2
      rcases h1 with h1 | ⟨ha, hb⟩
      · exact Or.inl h1
      · rcases h2 with h2 | ⟨hb2, hc⟩
        · exact absurd h2 hb
        · exact Or.inr ⟨ha, hc⟩
  · rw [sortBy_rows_of_cacheMiss t [col] false hmissD]
    refine jsSort_pairwise (P := fun _ => True) ?_ ?_ ?_ (fun x _ => trivial)
    · intro a b _ _ hlt
      by_cases hva : valueAt a col = Value.null
      · by_cases hvb : valueAt b col = Value.null
        · intro _
          exact hvb
        · exfalso
          simp [rowCompare, hva, hvb] at hlt
      · intro hnull
        exact absurd hnull hva
    · intro a b _ _ hlt
      by_cases hvb : valueAt b col = Value.null
      · by_cases hva : valueAt a col = Value.null
        · intro _
          exact hva
        · exfalso
          simp [rowCompare, hva, hvb] at hlt
      · intro hnull
        exact absurd hnull hvb
    · intro a b c _ _ _ h1 h2 ha
      exact h2 (h1 ha)
  · intro k hWT
    rw [sortBy_rows_of_cacheMiss t [col] true hmissA]
    refine jsSort_pairwise (P := fun r => isNullOrKind k (valueAt r col) = true)
      ?_ ?_ ?_ hWT
    · intro a b ha hb hlt
      rcases nullOrKind_cases ha with hva | hva
      · exact Or.inl hva
      · have hva' : valueAt a col ≠ Value.null := kindIs_ne_null hva
        rcases nullOrKind_cases hb with hvb | hvb
        · exfalso
          simp [rowCompare, hva', hvb] at hlt
        · have hvb' : valueAt b col ≠ Value.null := kindIs_ne_null hvb
          right
          by_cases hj : jsLt (valueAt a col) (valueAt b col) = true
          · exact valueLe_of_jsLt hva hvb hj
          · exfalso
            have hj' : jsLt (valueAt a col) (valueAt b col) = false := by
              simpa using hj
            by_cases hj2 : jsLt (valueAt b col) (valueAt a col) = true
            · simp [rowCompare, hva', hvb', hj', hj2] at hlt
            · have hj2' : jsLt (valueAt b col) (valueAt a col) = false := by
                simpa using hj2
              simp [rowCompare, hva', hvb', hj', hj2'] at hlt
    · intro a b ha hb hlt
      rcases nullOrKind_cases hb with hvb | hvb
      · exact Or.inl hvb
      · have hvb' : valueAt b col ≠ Value.null := kindIs_ne_null hvb
        rcases nullOrKind_cases ha with hva | hva
        · exfalso
          simp [rowCompare, hva, hvb'] at hlt
        · have hva' : valueAt a col ≠ Value.null := kindIs_ne_null hva
          right
          by_cases hj : jsLt (valueAt a col) (valueAt b col) = true
          · exfalso
            simp [rowCompare, hva', hvb', hj] at hlt
          · exact valueLe_of_not_jsLt hva hvb (by simpa using hj)
    · intro a b c ha hb hc h1 h2
      rcases h1 with h1 | h1
      · exact Or.inl h1
      · rcases h2 with h2 | h2
        · exfalso
          rw [h2] at h1
          exact valueLe_not_null_right h1
        · right
          have hka : kindIs k (valueAt a col) = true := by
            rcases nullOrKind_cases ha with h | h
            · exfalso
              rw [h] at h1
              exact valueLe_not_null_left h1
            · exact h
          have hkb : kindIs k (valueAt b col) = true := by
            rcases nullOrKind_cases hb with h | h
            · exfalso
              rw [h] at h1
              exact valueLe_not_null_right h1
            · exact h
          have hkc : kindIs k (valueAt c col) = true := by
            rcases nullOrKind_cases hc with h | h
            · exfalso
              rw [h] at h2
              exact valueLe_not_null_right h2
            · exact h
          exact valueLe_trans hka hkb hkc h1 h2

/-- C9 witness: the sort theorem applied to the concrete three-row
table with a null cell; the homogeneity hypothesis of the non-decreasing
part is discharged at the numeric kind. -/
theorem C9_witness_on_concrete_table :
    (assocFind? sortProbeTable.cache.sortedRows (cacheKeyOf ["v"] "true") = none) ∧
    (assocFind? sortProbeTable.cache.sortedRows (cacheKeyOf ["v"] "false") = none) ∧
    (∀ r ∈ sortProbeTable.rows, isNullOrKind ValueKind.num (valueAt r "v") = true) ∧
    (List.Pairwise (fun r1 r2 => valueAt r1 "v" = Value.null ∨
        (valueAt r1 "v" ≠ Value.null ∧ valueAt r2 "v" ≠ Value.null))
      ((sortProbeTable.sortBy ["v"] true).1.rows) ∧
    List.Pairwise (fun r1 r2 => valueAt r1 "v" = Value.null → valueAt r2 "v" = Value.null)
      ((sortProbeTable.sortBy ["v"] false).1.rows) ∧
    (∀ k : ValueKind, (∀ r ∈ sortProbeTable.rows, isNullOrKind k (valueAt r "v") = true) →
      List.Pairwise (fun r1 r2 => valueAt r1 "v" = Value.null ∨
          valueLe (valueAt r1 "v") (valueAt r2 "v"))
        ((sortProbeTable.sortBy ["v"] true).1.rows))) :=
  ⟨by decide, by decide, by decide,
    C9_sortBy_null_first_total_order sortProbeTable "v" (by decide) (by decide)⟩


theorem jsSort_eq_nil_iff {α : Type _} (lt : α → α → Bool) (l : List α) :
    jsSort lt l = [] ↔ l = [] := by
  constructor
  · intro h
    have hlen := (jsSort_perm lt l).length_eq
    rw [h] at hlen
    exact List.length_eq_zero.mp hlen.symm
  · intro h
    subst h
    rfl

theorem assocFind?_filterMap_keyed {β : Type _} (names : List String) (g : String → Option β)
    (c : String) :
    assocFind? (names.filterMap (fun a => (g a).map (fun b => (a, b)))) c =
      if c ∈ names then g c else none := by
  induction names with
  | nil => simp [assocFind?]
  | cons a names ih =>
    rw [List.filterMap_cons]
    have hiff : c ≠ a → ((c ∈ a :: names) ↔ (c ∈ names)) := by
      intro hne
      rw [List.mem_cons]
      constructor
      · intro hor
        rcases hor with heq | hmem
        · exact absurd heq hne
        · exact hmem
      · exact Or.inr
    cases hga : g a with
    | none =>
      simp only [hga, Option.map_none']
      rw [ih]
      by_cases hc : c = a
      · subst hc
        by_cases hm : c ∈ names
        · rw [if_pos hm, if_pos (List.mem_cons_self c names)]
        · rw [if_neg hm, if_pos (List.mem_cons_self c names), hga]
      · by_cases hm : c ∈ names
        · rw [if_pos hm, if_pos ((hiff hc).mpr hm)]
        · rw [if_neg hm, if_neg (fun hmem => hm ((hiff hc).mp hmem))]
    | some b =>
      simp only [hga, Option.map_some']
      by_cases hc : a = c
      · subst hc
        unfold assocFind?
        rw [List.find?_cons_of_pos _ (by simp)]
        rw [if_pos (List.mem_cons_self a names), hga]
      · unfold assocFind?
        rw [List.find?_cons_of_neg _ (by simpa using hc)]
        have hL := ih
        unfold assocFind? at hL
        rw [hL]
        have hne : c ≠ a := fun h => hc h.symm
        by_cases hm : c ∈ names
        · rw [if_pos hm, if_pos ((hiff hne).mpr hm)]
        · rw [if_neg hm, if_neg (fun hmem => hm ((hiff hne).mp hmem))]

theorem describeColumn_eq_none_iff (rows : List Row) (c : String) :
    describeColumn rows c = none ↔ validNumsOf rows c = [] := by
  simp only [describeColumn]
  by_cases h : sortedValsOf rows c = []
  · rw [if_pos h]
    constructor
    · intro _
      exact (jsSort_eq_nil_iff _ _).mp h
    · intro _
      rfl
  · rw [if_neg h]
    constructor
    · intro hcontra
      exact Option.noConfusion hcontra
    · intro hnil
      exact absurd ((jsSort_eq_nil_iff _ _).mpr hnil) h

theorem foldl_add_eq_sum (l : List ℚ) (a : ℚ) :
    l.foldl (fun x y => x + y) a = a + l.sum := by
  induction l generalizing a with
  | nil => simp
  | cons q l ih =>
    rw [List.foldl_cons, ih (a + q), List.sum_cons]
    ring

theorem foldl_add_map_sum (f : ℚ → ℚ) (l : List ℚ) (a : ℚ) :
    l.foldl (fun acc v => acc + f v) a = a + (l.map f).sum := by
  induction l generalizing a with
  | nil => simp
  | cons q l ih =>
    rw [List.foldl_cons, ih (a + f q), List.map_cons, List.sum_cons]
    ring

theorem sortedValsOf_sorted (rows : List Row) (c : String) :
    List.Pairwise (fun a b => a ≤ b) (sortedValsOf rows c) := by
  unfold sortedValsOf
  refine jsSort_pairwise (P := fun _ => True) ?_ ?_ ?_ (fun x _ => trivial)
  · intro a b _ _ h
    exact (of_decide_eq_true h).le
  · intro a b _ _ h
    exact le_of_not_lt (of_decide_eq_false h)
  · intro a b c _ _ _ hab hbc
    exact le_trans hab hbc

theorem sortedValsOf_perm (rows : List Row) (c : String) :
    List.Perm (sortedValsOf rows c) (validNumsOf rows c) :=
  jsSort_perm _ _

/-- C8: `describe` reports, per column that is numeric on the first row
and has at least one valid (number, non-NaN) value, the count, mean,
population variance (`std` is its square root, represented by the
`variance` field), min, max, and the nearest-rank quantiles at the
floor-indexed positions of the ascending-sorted valid values
(`floor(count*0.25)` etc. are exact for doubles, equal to the integer
divisions below); columns with zero valid values are omitted.  On the
single-column values [1, 2, 3] it yields count 3, mean 2, variance 2/3
(std = sqrt(2/3), witnessed by sqrt(2/3) * sqrt(2/3) = 2/3), min 1,
q25 = values[0] = 1, median = values[1] = 2, q75 = values[2] = 3,
max 3. -/
theorem C8_describe_population_stats :
    (∀ (t : DataTable) (c : String),
      (assocFind? t.describe c).isSome = true ↔
        (c ∈ numericColumnsOf t.rows ∧ validNumsOf t.rows c ≠ [])) ∧
    (∀ (t : DataTable) (c : String) (stats : IDescribeResult),
      assocFind? t.describe c = some stats →
      List.Pairwise (fun a b => a ≤ b) (sortedValsOf t.rows c) ∧
      List.Perm (sortedValsOf t.rows c) (validNumsOf t.rows c) ∧
      stats.count = (sortedValsOf t.rows c).length ∧
      stats.mean = (sortedValsOf t.rows c).sum / (stats.count : ℚ) ∧
      stats.variance =
        ((sortedValsOf t.rows c).map (fun v => (v - stats.mean) ^ 2)).sum / (stats.count : ℚ) ∧
      stats.min = (sortedValsOf t.rows c).getD 0 0 ∧
      stats.q25 = (sortedValsOf t.rows c).getD (stats.count / 4) 0 ∧
      stats.median = (sortedValsOf t.rows c).getD (stats.count / 2) 0 ∧
      stats.q75 = (sortedValsOf t.rows c).getD (stats.count * 3 / 4) 0 ∧
      stats.max = (sortedValsOf t.rows c).getD (stats.count - 1) 0) ∧
    (describeProbeTable.describe =
      [("v", { count := 3, mean := 2, variance := 2/3, min := 1,
               q25 := 1, median := 2, q75 := 3, max := 3 })] ∧
     Real.sqrt (2/3) * Real.sqrt (2/3) = 2/3) := by
  refine ⟨?_, ?_, by decide, Real.mul_self_sqrt (by norm_num)⟩
  · intro t c
    unfold DataTable.describe
    rw [assocFind?_filterMap_keyed]
    by_cases hc : c ∈ numericColumnsOf t.rows
    · rw [if_pos hc]
      rw [Option.isSome_iff_ne_none]
      constructor
      · intro h
        exact ⟨hc, fun hnil => h ((describeColumn_eq_none_iff _ _).mpr hnil)⟩
      · rintro ⟨_, hne⟩ hnone
        exact hne ((describeColumn_eq_none_iff _ _).mp hnone)
    · rw [if_neg hc]
      simp [hc]
  · intro t c stats h
    unfold DataTable.describe at h
    rw [assocFind?_filterMap_keyed] at h
    by_cases hc : c ∈ numericColumnsOf t.rows
    · rw [if_pos hc] at h
      simp only [describeColumn] at h
      by_cases hnil : sortedValsOf t.rows c = []
      · rw [if_pos hnil] at h
        exact Option.noConfusion h
      · rw [if_neg hnil] at h
        have hs := h
        injection hs with hs2
        subst hs2
        refine ⟨sortedValsOf_sorted t.rows c, sortedValsOf_perm t.rows c, rfl, ?_, ?_,
          rfl, rfl, rfl, rfl, rfl⟩
        · simp only [foldl_add_eq_sum, zero_add]
        · simp only [foldl_add_eq_sum, foldl_add_map_sum, zero_add]
    · rw [if_neg hc] at h
      exact Option.noConfusion h
